import Mathlib

/-!
Verification of the comma-splitting helper (`awscli/utils.py`) and the
`configure export` subcommand (`awscli/customizations/configure/export.py`).

Strings are modelled as `List Char`.  The rough tokenizer
`list(csv.reader(StringIO(value), escapechar='\\'))` (excel dialect:
delimiter `,`, quotechar `"`, doublequote on, strict off) is embedded as the
reader automaton over the line structure of the input: `StringIO` yields the
input split after each `'\n'` (terminators kept, `'\r'` is not a line
separator), the automaton processes each line's characters followed by an
end-of-line sentinel, a record is emitted each time the automaton returns to
its start state, a character following a bare `'\r'` in an unquoted context
raises `csv.Error`, and at end of data a pending field or an open quoted
field is saved non-strictly as a final record.  `[0]` then selects the first
record, raising `IndexError` when the reader yielded no row at all.
-/

namespace AwsCli

/-- Python `str.split(',')`: split on every comma; `""` yields `[""]`. -/
def splitOnComma : List Char → List (List Char)
  | [] => [[]]
  | c :: rest =>
    if c = ',' then [] :: splitOnComma rest
    else
      match splitOnComma rest with
      | [] => [[c]]
      | t :: ts => (c :: t) :: ts

/-- Python `str.find(c)` for a single character: first index, or `-1`. -/
def pyFindChar (s : List Char) (c : Char) : Int :=
  match s with
  | [] => -1
  | a :: rest =>
    if a = c then 0
    else
      let r := pyFindChar rest c
      if r = -1 then -1 else r + 1

/-- Python `str.find(pat)` for a substring pattern: first index, or `-1`. -/
def pyFindSub (s pat : List Char) : Int :=
  match s with
  | [] => if pat = [] then 0 else -1
  | _ :: rest =>
    if pat.isPrefixOf s then 0
    else
      let r := pyFindSub rest pat
      if r = -1 then -1 else r + 1

/-- Python `','.join(xs)`. -/
def joinComma : List (List Char) → List Char
  | [] => []
  | [t] => t
  | t :: ts => t ++ ',' :: joinComma ts

/-- Python `current.replace(q, '')` for a single character `q`
(`none` models the default `replace_char=''`, which leaves the string as is). -/
def pyReplace (replaceChar : Option Char) (s : List Char) : List Char :=
  match replaceChar with
  | none => s
  | some q => s.filter (fun c => ¬ c = q)

/-- Python `current.endswith(e)` for a single character `e`. -/
def pyEndsWith (s : List Char) (e : Char) : Bool :=
  s.getLast? = some e

/-- Python exceptions that the splitter can raise: `ValueError` with its
argument, the `IndexError` of `[0]` on an empty row list, and the
`csv.Error` that propagates uncaught out of the escape-only branch of
`split_on_commas` (its message, "new-line character seen in unquoted field",
plays no role here). -/
inductive PyErr where
  | valueError (payload : List Char)
  | indexError
  | csvError
  deriving DecidableEq, Repr

instance {ε α : Type} [DecidableEq ε] [DecidableEq α] : DecidableEq (Except ε α) :=
  fun a b =>
    match a, b with
    | .error e, .error f =>
      if h : e = f then .isTrue (by rw [h])
      else .isFalse (fun hh => h (Except.error.inj hh))
    | .error _, .ok _ => .isFalse (fun h => Except.noConfusion h)
    | .ok _, .error _ => .isFalse (fun h => Except.noConfusion h)
    | .ok x, .ok y =>
      if h : x = y then .isTrue (by rw [h])
      else .isFalse (fun hh => h (Except.ok.inj hh))

/-! ### The rough tokenizer: `csv.reader` with `escapechar='\\'` -/

/-- Tokens fed to the reader automaton: the characters of each line, followed
by the end-of-line sentinel that the reader processes after every line it
obtains from the input iterator. -/
inductive CsvTok where
  | ch (c : Char)
  | eol
  deriving DecidableEq, Repr

/-- The token stream of `csv.reader(six.StringIO(value), ...)`:
`StringIO` yields the input split after each `'\n'` (keeping the terminator;
`'\r'` does not separate lines), and each line contributes its characters
followed by the end-of-line sentinel.  The empty input yields no line and
hence no token. -/
def csvToks : List Char → List CsvTok
  | [] => []
  | c :: rest =>
    if c = '\n' then CsvTok.ch '\n' :: CsvTok.eol :: csvToks rest
    else
      match rest with
      | [] => [CsvTok.ch c, CsvTok.eol]
      | _ :: _ => CsvTok.ch c :: csvToks rest

/-- States of the `_csv.c` reader automaton (excel dialect: delimiter `,`,
quotechar `"`, doublequote on, escapechar `\`, strict off). -/
inductive CsvState where
  | startRecord
  | startField
  | inField
  | inQuoted
  | quoteInQuoted
  | escaped
  | escapedInQuoted
  | afterEscapedCRNL
  | eatCRNL
  deriving DecidableEq, Repr

/-- Accumulator of the reader: the state, the field being accumulated, the
fields of the record being accumulated, and the completed records. -/
structure CsvAcc where
  st : CsvState
  field : List Char
  fields : List (List Char)
  records : List (List (List Char))
  deriving Repr

/-- `parse_save_field`: move the current field into the current record. -/
def saveField (acc : CsvAcc) : CsvAcc :=
  { acc with field := [], fields := acc.fields ++ [acc.field] }

/-- `parse_add_char`: append a character to the current field. -/
def addChar (c : Char) (acc : CsvAcc) : CsvAcc :=
  { acc with field := acc.field ++ [c] }

/-- The `IN_FIELD` handling of an ordinary character (also the fall-through
handling of `AFTER_ESCAPED_CRNL`). -/
def stepInField (c : Char) (acc : CsvAcc) : CsvAcc :=
  if c = '\n' ∨ c = '\r' then { saveField acc with st := .eatCRNL }
  else if c = '\\' then { acc with st := .escaped }
  else if c = ',' then { saveField acc with st := .startField }
  else { addChar c acc with st := .inField }

/-- The `START_FIELD` handling of an ordinary character (also the
fall-through handling of `START_RECORD`). -/
def stepStartField (c : Char) (acc : CsvAcc) : CsvAcc :=
  if c = '\n' ∨ c = '\r' then { saveField acc with st := .eatCRNL }
  else if c = '"' then { acc with st := .inQuoted }
  else if c = '\\' then { acc with st := .escaped }
  else if c = ',' then { saveField acc with st := .startField }
  else { addChar c acc with st := .inField }

/-- `parse_process_char` on an ordinary character.  The only failure is a
character following a bare `'\r'` in an unquoted context (`EAT_CRNL`), the
csv.Error "new-line character seen in unquoted field". -/
def csvStepCh (c : Char) (acc : CsvAcc) : Except Unit CsvAcc :=
  match acc.st with
  | .startRecord =>
    if c = '\n' ∨ c = '\r' then .ok { acc with st := .eatCRNL }
    else .ok (stepStartField c acc)
  | .startField => .ok (stepStartField c acc)
  | .inField => .ok (stepInField c acc)
  | .inQuoted =>
    if c = '\\' then .ok { acc with st := .escapedInQuoted }
    else if c = '"' then .ok { acc with st := .quoteInQuoted }
    else .ok (addChar c acc)
  | .quoteInQuoted =>
    if c = '"' then .ok { addChar c acc with st := .inQuoted }
    else if c = ',' then .ok { saveField acc with st := .startField }
    else if c = '\n' ∨ c = '\r' then .ok { saveField acc with st := .eatCRNL }
    else .ok { addChar c acc with st := .inField }
  | .escaped =>
    if c = '\n' ∨ c = '\r' then .ok { addChar c acc with st := .afterEscapedCRNL }
    else .ok { addChar c acc with st := .inField }
  | .escapedInQuoted => .ok { addChar c acc with st := .inQuoted }
  | .afterEscapedCRNL => .ok (stepInField c acc)
  | .eatCRNL =>
    if c = '\n' ∨ c = '\r' then .ok acc
    else .error ()

/-- `parse_process_char` on the end-of-line sentinel, which never fails: it
completes the record in the unquoted states, is ignored inside a quoted
field and after an escaped line break (the record continues on the next
line), and stands for a `'\n'` after a pending escape. -/
def csvStepEol (acc : CsvAcc) : CsvAcc :=
  match acc.st with
  | .startRecord =>
    { st := .startRecord, field := [], fields := [],
      records := acc.records ++ [acc.fields] }
  | .startField =>
    { st := .startRecord, field := [], fields := [],
      records := acc.records ++ [acc.fields ++ [acc.field]] }
  | .inField =>
    { st := .startRecord, field := [], fields := [],
      records := acc.records ++ [acc.fields ++ [acc.field]] }
  | .quoteInQuoted =>
    { st := .startRecord, field := [], fields := [],
      records := acc.records ++ [acc.fields ++ [acc.field]] }
  | .eatCRNL =>
    { st := .startRecord, field := [], fields := [],
      records := acc.records ++ [acc.fields] }
  | .inQuoted => acc
  | .afterEscapedCRNL => acc
  | .escaped => { addChar '\n' acc with st := .inField }
  | .escapedInQuoted => { addChar '\n' acc with st := .inQuoted }

/-- Run the reader automaton over a token stream. -/
def csvRunToks : CsvAcc → List CsvTok → Except Unit CsvAcc
  | acc, [] => .ok acc
  | acc, .eol :: rest => csvRunToks (csvStepEol acc) rest
  | acc, .ch c :: rest =>
    match csvStepCh c acc with
    | .error e => .error e
    | .ok acc2 => csvRunToks acc2 rest

/-- End of data: with the dialect non-strict, a pending partial field or an
open quoted field is saved and yields one final record. -/
def csvFinish (acc : CsvAcc) : List (List (List Char)) :=
  if ¬ acc.field = [] ∨ acc.st = .inQuoted then
    acc.records ++ [acc.fields ++ [acc.field]]
  else acc.records

/-- `list(csv.reader(six.StringIO(value), escapechar='\\'))`: all records,
or the csv.Error raised while reading. -/
def csvReadAll (value : List Char) : Except Unit (List (List (List Char))) :=
  match csvRunToks ⟨.startRecord, [], [], []⟩ (csvToks value) with
  | .error e => .error e
  | .ok acc => .ok (csvFinish acc)

/-- `list(csv.reader(six.StringIO(value), escapechar='\\'))[0]` with its two
failure modes: the propagated csv.Error, and the `IndexError` of `[0]` when
the reader yields no row at all. -/
def csvParse (value : List Char) : Except PyErr (List (List Char)) :=
  match csvReadAll value with
  | .error _ => .error .csvError
  | .ok [] => .error .indexError
  | .ok (r :: _) => .ok r

/-! ### `_find_quote_char_in_part`, `_eat_items`, `_split_with_quotes` -/

/-- `_find_quote_char_in_part(part)`. -/
def find_quote_char_in_part (part : List Char) : Option Char :=
  if ¬ part.contains '"' ∧ ¬ part.contains '\'' then none
  else
    let doubleQuote := pyFindChar part '"'
    let singleQuote := pyFindChar part '\''
    if doubleQuote ≥ 0 ∧ singleQuote = -1 then some '"'
    else if singleQuote ≥ 0 ∧ doubleQuote = -1 then some '\''
    else if doubleQuote < singleQuote then some '"'
    else if singleQuote < doubleQuote then some '\''
    else none

/-- The loop of `_eat_items`: consume rough tokens from the iterator until one
ends with `endChar`; raise `ValueError(value)` if the iterator is exhausted.
Returns the consumed (replaced) tokens together with the rest of the iterator. -/
def eatItemsAux (value : List Char) (endChar : Char) (replaceChar : Option Char) :
    List (List Char) → Except PyErr (List (List Char) × List (List Char))
  | [] => .error (.valueError value)
  | cur :: rest =>
    if pyEndsWith cur endChar then .ok ([pyReplace replaceChar cur], rest)
    else
      match eatItemsAux value endChar replaceChar rest with
      | .error e => .error e
      | .ok (chunks, rest') => .ok (pyReplace replaceChar cur :: chunks, rest')

/-- `_eat_items(value, iter_parts, part, end_char, replace_char)`:
the iterator is modelled as the list of remaining rough tokens, which is
returned alongside the comma-joined chunk. -/
def eatItems (value : List Char) (parts : List (List Char)) (part : List Char)
    (endChar : Char) (replaceChar : Option Char) :
    Except PyErr (List Char × List (List Char)) :=
  match eatItemsAux value endChar replaceChar parts with
  | .error e => .error e
  | .ok (chunks, rest') => .ok (joinComma (pyReplace replaceChar part :: chunks), rest')

/-- The `for part in iter_parts` loop of `_split_with_quotes`, fuelled.
The recursive `_split_with_quotes(new_chunk[list_start + 2:-1])` call is
inlined (csv re-parse followed by the loop).  The fuel only bounds the
recursion depth; `split_with_quotes` passes enough fuel that the `0` case is
never reached on the inputs appearing in the theorems below. -/
def processParts : Nat → List Char → List (List Char) → Except PyErr (List (List Char))
  | 0, _, _ => .error .indexError
  | Nat.succ n, value, parts =>
    match parts with
    | [] => .ok []
    | part :: rest =>
      let quoteChar := find_quote_char_in_part part
      let listStart := pyFindSub part ['=', '[']
      let listCond : Bool :=
        decide (listStart ≥ 0) && decide (¬ pyFindChar value ']' = -1) &&
        (match quoteChar with
         | none => true
         | some q => decide (pyFindChar part q > listStart))
      if listCond then
        let chunkRes :=
          if part.contains ']' then Except.ok (part, rest)
          else eatItems value rest part ']' none
        match chunkRes with
        | .error e => .error e
        | .ok (newChunk, rest') =>
          let inner := (newChunk.drop (listStart.toNat + 2)).dropLast
          let itemsRes :=
            match csvReadAll inner with
            | .error _ =>
              Except.error (PyErr.valueError ("Bad csv value: ".toList ++ inner))
            | .ok [] => Except.error PyErr.indexError
            | .ok (ps :: _) => processParts n inner ps
          match itemsRes with
          | .error e => .error e
          | .ok listItems =>
            let newChunk2 := newChunk.take (listStart.toNat + 1) ++ joinComma listItems
            match processParts n value rest' with
            | .error e => .error e
            | .ok tail => .ok (newChunk2 :: tail)
      else
        match quoteChar with
        | none =>
          match processParts n value rest with
          | .error e => .error e
          | .ok tail => .ok (part :: tail)
        | some q =>
          if part.count q = 2 then
            match processParts n value rest with
            | .error e => .error e
            | .ok tail => .ok (part.filter (fun c => ¬ c = q) :: tail)
          else
            match eatItems value rest part q (some q) with
            | .error e => .error e
            | .ok (newChunk, rest') =>
              match processParts n value rest' with
              | .error e => .error e
              | .ok tail => .ok (newChunk :: tail)

/-- `_split_with_quotes(value)`: the csv pass is wrapped in
`except csv.Error: raise ValueError("Bad csv value: %s" % value)`; the
`IndexError` of `[0]` is not caught and propagates as is. -/
def split_with_quotes (value : List Char) : Except PyErr (List (List Char)) :=
  match csvReadAll value with
  | .error _ => .error (.valueError ("Bad csv value: ".toList ++ value))
  | .ok [] => .error .indexError
  | .ok (parts :: _) => processParts (value.length + parts.length + 2) value parts

/-- `split_on_commas(value)`: in the escape-only branch the csv pass is not
wrapped in a try/except, so both the csv.Error and the `IndexError`
propagate unchanged. -/
def split_on_commas (value : List Char) : Except PyErr (List (List Char)) :=
  if ¬ (['"', '\\', '\'', ']', '['].any fun c => value.contains c) then
    .ok (splitOnComma value)
  else if ¬ (['"', '\'', '[', ']'].any fun c => value.contains c) then
    match csvParse value with
    | .error e => .error e
    | .ok parts => .ok parts
  else
    split_with_quotes value

/-! ### `configure export` (`awscli/customizations/configure/export.py`) -/

/-- Modelled from the spec: the `NOT_SET` sentinel imported from the
`configure` package (`from . import NOT_SET`) is not under `src/`; the spec
only says values may resolve to "not set".  A resolved value is therefore
either an actual string or the distinguished sentinel, and the identity
comparisons `is not NOT_SET` of the source become inequality with `notSet`. -/
inductive ConfigValue where
  | value (s : String)
  | notSet
  deriving DecidableEq, Repr

/-- Modelled from the spec: the external session/config collaborator
(`self._session`), which the spec declares out of scope.  It answers
`get_config_variable(name, methods=('env',))`,
`get_config_variable(name, methods=('config',))` (both returning a string or
`None`) and `get_credentials()` (returning `None` or an object carrying
`access_key` and `secret_key`). -/
structure Session where
  envVar : String → Option String
  configVar : String → Option String
  credentials : Option (String × String)

/-- `ExportCommand._lookup_config(name)`. -/
def lookup_config (s : Session) (name : String) : ConfigValue :=
  match s.envVar name with
  | some v => .value v
  | none =>
    match s.configVar name with
    | some v => .value v
    | none => .notSet

/-- `ExportCommand._lookup_credentials()`. -/
def lookup_credentials (s : Session) : ConfigValue × ConfigValue :=
  let access_key := lookup_config s "access_key"
  if access_key ≠ ConfigValue.notSet then
    (access_key, lookup_config s "secret_key")
  else
    match s.credentials with
    | none => (.notSet, .notSet)
    | some (ak, sk) => (.value ak, .value sk)

/-- `ExportCommand._run_main`: the sequence of `export KEY=VALUE` lines
written to standard output, as (variable name, printed value) pairs. -/
def run_main (s : Session) : List (String × ConfigValue) :=
  let creds := lookup_credentials s
  let region := lookup_config s "region"
  [("AWS_ACCESS_KEY_ID", creds.1), ("AWS_SECRET_ACCESS_KEY", creds.2)] ++
    (if region ≠ ConfigValue.notSet then [("AWS_DEFAULT_REGION", region)] else [])

/-- A session where nothing is configured at all. -/
def emptySession : Session :=
  { envVar := fun _ => none, configVar := fun _ => none, credentials := none }

/-- A session whose environment carries a region (used as a witness input). -/
def envRegionSession : Session :=
  { envVar := fun n => if n = "region" then some "eu-west-1" else none
    configVar := fun _ => some "from-config-file"
    credentials := none }

/-- Tokens free of all five characters that are special to the splitter. -/
def NoSpecials (t : List Char) : Prop :=
  ¬ t.contains '"' ∧ ¬ t.contains '\\' ∧ ¬ t.contains '\'' ∧
    ¬ t.contains '[' ∧ ¬ t.contains ']'

instance (t : List Char) : Decidable (NoSpecials t) := by
  unfold NoSpecials; infer_instance

/-- Tokens free of line breaks and carriage returns, so that the csv reader
sees them as a single line. -/
def NoLineBreaks (t : List Char) : Prop :=
  ¬ t.contains '\n' ∧ ¬ t.contains '\r'

instance (t : List Char) : Decidable (NoLineBreaks t) := by
  unfold NoLineBreaks; infer_instance

/-- No field of the reader accumulator — current, saved in the current
record, or in a completed record — contains the character `c`. -/
def CsvNoChar (c : Char) (acc : CsvAcc) : Prop :=
  ¬ acc.field.contains c ∧ (∀ p ∈ acc.fields, ¬ p.contains c) ∧
    (∀ r ∈ acc.records, ∀ p ∈ r, ¬ p.contains c)

/-- Prepend a prefix onto the first token of a token list (used to describe
how `splitOnComma` acts on appended strings). -/
def consHead (f : List Char) : List (List Char) → List (List Char)
  | [] => [f]
  | t :: ts => (f ++ t) :: ts

/-- Append the closing `]` to the last token of a (nonempty) token list. -/
def appendLastBr : List (List Char) → List (List Char)
  | [] => []
  | [t] => [t ++ [']']]
  | t :: ts => t :: appendLastBr ts

end AwsCli

namespace AwsCli

-- Sanity checks of the tokenizer model against the Python csv module.
example : csvParse ("a,\"b,c").toList = .ok [['a'], ['b', ',', 'c']] := by decide
example : csvParse ("a\\,b").toList = .ok [['a', ',', 'b']] := by decide
example : csvParse ("a\\").toList = .ok [['a', '\n']] := by decide
example : csvParse ("\"ab\"cd,e").toList = .ok ["abcd".toList, ['e']] := by decide
example : csvParse ("\"a\"\"b\",c").toList = .ok [['a', '"', 'b'], ['c']] := by decide
example : csvParse ("key=[1,2,3]").toList =
    .ok ["key=[1".toList, ['2'], ['3', ']']] := by decide
example : csvParse ("key='a,b',other=1").toList =
    .ok ["key='a".toList, ['b', '\''], "other=1".toList] := by decide
example : csvParse ("\"a\"\\x,b").toList = .ok [['a', '\\', 'x'], ['b']] := by decide
example : csvParse ("x,\"").toList = .ok [['x'], []] := by decide
example : csvParse ",,".toList = .ok [[], [], []] := by decide
example : csvParse "".toList = .error .indexError := by decide

-- Line breaks and carriage returns, checked against the Python csv module.
example : csvReadAll "a,b\nc,d".toList =
    .ok [[['a'], ['b']], [['c'], ['d']]] := by decide
example : csvParse "a\nb".toList = .ok [['a']] := by decide
example : csvParse "\na\\b".toList = .ok [] := by decide
example : csvParse "a\rb".toList = .error .csvError := by decide
example : csvParse "a\r".toList = .ok [['a']] := by decide
example : csvParse "a\r\nb".toList = .ok [['a']] := by decide
example : csvReadAll "\"a\nb\"".toList = .ok [[['a', '\n', 'b']]] := by decide
example : csvReadAll "a\\\nb".toList = .ok [[['a', '\n', 'b']]] := by decide
example : csvReadAll "\n".toList = .ok [[]] := by decide
example : csvReadAll "\r".toList = .ok [[]] := by decide
example : csvReadAll "a,\r".toList = .ok [[['a'], []]] := by decide
example : csvReadAll "a\n\rx".toList = .error () := by decide
example : csvReadAll "x\x00y".toList = .ok [[['x', '\x00', 'y']]] := by decide

-- Sanity checks of the full splitter.
example : split_on_commas "a,b,c".toList = .ok [['a'], ['b'], ['c']] := by decide
example : split_on_commas "".toList = .ok [[]] := by decide
example : split_on_commas "a,\"b,c\",d".toList =
    .ok [['a'], ['b', ',', 'c'], ['d']] := by decide
example : split_on_commas "key=[1,2,3]".toList = .ok ["key=1,2,3".toList] := by decide
example : split_on_commas "key='a,b',other=1".toList =
    .ok ["key=a,b".toList, "other=1".toList] := by decide
example : split_on_commas "key=[1,2".toList =
    .ok ["key=[1".toList, ['2']] := by decide
example : split_on_commas "a,\"b,c".toList = .ok [['a'], ['b', ',', 'c']] := by decide
example : split_on_commas "a,'b,c".toList =
    .error (.valueError "a,'b,c".toList) := by decide
example : split_on_commas "key=['a,b]".toList =
    .error (.valueError "'a,b".toList) := by decide
example : split_on_commas "a\\,b".toList = .ok [['a', ',', 'b']] := by decide
example : split_on_commas "a],key=[1,2".toList =
    .error (.valueError "a],key=[1,2".toList) := by decide
example : split_on_commas "key=[]".toList = .error .indexError := by decide
example : split_on_commas "\na\\b".toList = .ok [] := by decide
example : split_on_commas "a\\b\rc".toList = .error .csvError := by decide
example : split_on_commas "key=[a\rb".toList =
    .error (.valueError ("Bad csv value: key=[a\rb".toList)) := by decide
example : split_on_commas "a\nb=[1]".toList = .ok [['a']] := by decide
example : split_on_commas "x\"y'z\",w".toList =
    .ok ["xy'z".toList, ['w']] := by decide

/-! ### Helper lemmas about comma splitting and joining -/

theorem contains_iff_mem (t : List Char) (c : Char) : t.contains c = true ↔ c ∈ t := by
  simp [List.contains]

theorem splitOnComma_ne_nil (s : List Char) : splitOnComma s ≠ [] := by
  cases s with
  | nil => simp [splitOnComma]
  | cons c rest =>
    simp only [splitOnComma]
    split
    · simp
    · split <;> simp

theorem consHead_nil_left (xs : List (List Char)) (h : xs ≠ []) : consHead [] xs = xs := by
  cases xs with
  | nil => exact absurd rfl h
  | cons t ts => simp [consHead]

theorem splitOnComma_append (xs ys : List Char) (h : ¬ xs.contains ',') :
    splitOnComma (xs ++ ys) = consHead xs (splitOnComma ys) := by
  induction xs with
  | nil => simp [consHead_nil_left _ (splitOnComma_ne_nil ys)]
  | cons c rest ih =>
    simp only [List.contains_cons, Bool.or_eq_true, beq_iff_eq] at h
    push_neg at h
    have hc : ¬ c = ',' := fun hh => h.1 hh.symm
    rw [List.cons_append]
    simp only [splitOnComma]
    rw [if_neg hc, ih (by simpa using h.2)]
    cases hys : splitOnComma ys with
    | nil => exact absurd hys (splitOnComma_ne_nil ys)
    | cons t ts => cases rest <;> simp [consHead]

theorem splitOnComma_nocomma (xs : List Char) (h : ¬ xs.contains ',') :
    splitOnComma xs = [xs] := by
  have h2 := splitOnComma_append xs [] h
  simpa [splitOnComma, consHead] using h2

theorem splitOnComma_join (items : List (List Char)) (hne : items ≠ [])
    (h : ∀ t ∈ items, ¬ t.contains ',') :
    splitOnComma (joinComma items) = items := by
  induction items with
  | nil => exact absurd rfl hne
  | cons t ts ih =>
    cases ts with
    | nil => simp [joinComma, splitOnComma_nocomma t (h t (by simp))]
    | cons t2 more =>
      show splitOnComma (t ++ ',' :: joinComma (t2 :: more)) = _
      rw [splitOnComma_append t _ (h t (by simp))]
      have hstep : splitOnComma (',' :: joinComma (t2 :: more)) =
          [] :: splitOnComma (joinComma (t2 :: more)) := by
        simp [splitOnComma]
      rw [hstep, ih (by simp) (fun u hu => h u (by simp [hu]))]
      simp [consHead]

theorem splitOnComma_join_br (items : List (List Char)) (hne : items ≠ [])
    (h : ∀ t ∈ items, ¬ t.contains ',') :
    splitOnComma (joinComma items ++ [']']) = appendLastBr items := by
  induction items with
  | nil => exact absurd rfl hne
  | cons t ts ih =>
    cases ts with
    | nil =>
      show splitOnComma (t ++ [']']) = _
      rw [splitOnComma_append t _ (h t (by simp))]
      simp [splitOnComma, consHead, appendLastBr]
    | cons t2 more =>
      show splitOnComma ((t ++ ',' :: joinComma (t2 :: more)) ++ [']']) = _
      rw [List.append_assoc, List.cons_append,
        splitOnComma_append t _ (h t (by simp))]
      have hstep : splitOnComma (',' :: (joinComma (t2 :: more) ++ [']'])) =
          [] :: splitOnComma (joinComma (t2 :: more) ++ [']']) := by
        simp [splitOnComma]
      rw [hstep, ih (by simp) (fun u hu => h u (by simp [hu]))]
      simp [consHead, appendLastBr]

theorem joinComma_consHead (f : List Char) (xs : List (List Char)) (h : xs ≠ []) :
    joinComma (consHead f xs) = f ++ joinComma xs := by
  cases xs with
  | nil => exact absurd rfl h
  | cons t ts => cases ts <;> simp [consHead, joinComma]

theorem joinComma_appendLastBr (items : List (List Char)) (h : items ≠ []) :
    joinComma (appendLastBr items) = joinComma items ++ [']'] := by
  induction items with
  | nil => exact absurd rfl h
  | cons t ts ih =>
    cases ts with
    | nil => simp [appendLastBr, joinComma]
    | cons t2 more =>
      show joinComma (t :: appendLastBr (t2 :: more)) = _
      have h2 : appendLastBr (t2 :: more) ≠ [] := by
        cases more <;> simp [appendLastBr]
      cases hab : appendLastBr (t2 :: more) with
      | nil => exact absurd hab h2
      | cons u us =>
        simp only [joinComma]
        rw [← hab, ih (by simp)]
        simp [joinComma]

theorem length_le_joinComma (xs : List (List Char)) :
    xs.length ≤ (joinComma xs).length + 1 := by
  induction xs with
  | nil => simp
  | cons t ts ih =>
    cases ts with
    | nil => simp [joinComma]
    | cons t2 more =>
      simp only [joinComma, List.length_cons, List.length_append] at *
      omega

theorem contains_joinComma {c : Char} (hc : ¬ c = ',') (xs : List (List Char))
    (h : ∀ t ∈ xs, ¬ t.contains c) : ¬ (joinComma xs).contains c := by
  induction xs with
  | nil => simp [joinComma, List.contains]
  | cons t ts ih =>
    cases ts with
    | nil => simpa [joinComma] using h t (by simp)
    | cons t2 more =>
      show ¬ (t ++ ',' :: joinComma (t2 :: more)).contains c = true
      rw [contains_iff_mem]
      simp only [List.mem_append, List.mem_cons]
      push_neg
      refine ⟨?_, fun hh => hc hh, ?_⟩
      · intro hmem
        exact h t (by simp) ((contains_iff_mem t c).2 hmem)
      · intro hmem
        exact ih (fun u hu => h u (by simp [hu])) ((contains_iff_mem _ c).2 hmem)

/-! ### Helper lemmas about the Python-style find / endswith primitives -/

theorem pyFindChar_ge (s : List Char) (c : Char) : -1 ≤ pyFindChar s c := by
  induction s with
  | nil => simp [pyFindChar]
  | cons a rest ih =>
    simp only [pyFindChar]
    split_ifs <;> omega

theorem pyFindSub_ge (s pat : List Char) : -1 ≤ pyFindSub s pat := by
  induction s with
  | nil => simp only [pyFindSub]; split_ifs <;> omega
  | cons a rest ih =>
    simp only [pyFindSub]
    split_ifs <;> omega

theorem pyFindChar_neg_iff (s : List Char) (c : Char) :
    pyFindChar s c = -1 ↔ ¬ s.contains c := by
  induction s with
  | nil => simp [pyFindChar, List.contains]
  | cons a rest ih =>
    simp only [pyFindChar, List.contains_cons, Bool.or_eq_true, beq_iff_eq]
    by_cases ha : a = c
    · simp [ha]
    · rw [if_neg ha]
      by_cases hr : pyFindChar rest c = -1
      · rw [if_pos hr]
        constructor
        · intro _
          push_neg
          exact ⟨fun hh => ha hh.symm, by simpa using ih.1 hr⟩
        · intro _; rfl
      · have hge := pyFindChar_ge rest c
        rw [if_neg hr]
        constructor
        · intro hh; omega
        · intro hh
          exfalso
          push_neg at hh
          exact hr (ih.2 (by simpa using hh.2))

theorem pyFindSub_no_bracket (s : List Char) (h : ¬ s.contains '[') :
    pyFindSub s ['=', '['] = -1 := by
  induction s with
  | nil => simp [pyFindSub]
  | cons a rest ih =>
    simp only [List.contains_cons, Bool.or_eq_true, beq_iff_eq] at h
    push_neg at h
    simp only [pyFindSub]
    have hpre : ¬ (List.isPrefixOf ['=', '['] (a :: rest) = true) := by
      cases rest with
      | nil => simp [List.isPrefixOf]
      | cons b more =>
        simp only [List.isPrefixOf, Bool.and_eq_true, beq_iff_eq]
        rintro ⟨-, hb, -⟩
        exact h.2.elim (by simp [← hb])
    rw [if_neg hpre, ih (by simpa using h.2)]
    simp

theorem pyFindSub_marker (key s : List Char) (h : ¬ key.contains '[') :
    pyFindSub (key ++ '=' :: '[' :: s) ['=', '['] = (key.length : Int) := by
  induction key with
  | nil => simp [pyFindSub, List.isPrefixOf]
  | cons a rest ih =>
    simp only [List.contains_cons, Bool.or_eq_true, beq_iff_eq] at h
    push_neg at h
    simp only [List.cons_append, pyFindSub]
    have hpre : ¬ (List.isPrefixOf ['=', '['] (a :: (rest ++ '=' :: '[' :: s)) = true) := by
      cases rest with
      | nil =>
        simp [List.isPrefixOf]
      | cons b more =>
        simp only [List.cons_append, List.isPrefixOf, Bool.and_eq_true, beq_iff_eq]
        rintro ⟨-, hb, -⟩
        exact h.2.elim (by simp [← hb])
    rw [if_neg hpre]
    simp only [List.append_eq]
    rw [ih (by simpa using h.2)]
    have : ((rest.length : Int)) ≠ -1 := by
      have : (0 : Int) ≤ rest.length := Int.natCast_nonneg _
      omega
    rw [if_neg this]
    simp only [List.length_cons]
    push_cast
    ring

theorem pyEndsWith_concat (t : List Char) (c : Char) : pyEndsWith (t ++ [c]) c = true := by
  simp [pyEndsWith]

theorem pyEndsWith_false_of_not_contains (t : List Char) (c : Char)
    (h : ¬ t.contains c) : pyEndsWith t c = false := by
  cases t with
  | nil => simp [pyEndsWith]
  | cons a rest =>
    have hne : (a :: rest) ≠ [] := by simp
    have hmem := List.getLast_mem hne
    have hlast : ¬ (a :: rest).getLast hne = c := fun hh =>
      h ((contains_iff_mem _ c).2 (hh ▸ hmem))
    simp [pyEndsWith, List.getLast?_eq_getLast_of_ne_nil hne, hlast]

/-! ### Helper lemmas about the csv tokenizer -/

theorem csvToks_map (value : List Char) (hne : value ≠ [])
    (hnl : ¬ value.contains '\n') :
    csvToks value = value.map CsvTok.ch ++ [CsvTok.eol] := by
  induction value with
  | nil => exact absurd rfl hne
  | cons c rest ih =>
    simp only [List.contains_cons, Bool.or_eq_true, beq_iff_eq] at hnl
    push_neg at hnl
    have hcnl : ¬ c = '\n' := fun hh => hnl.1 hh.symm
    cases rest with
    | nil => simp [csvToks, hcnl]
    | cons d more =>
      have hd : csvToks (c :: d :: more) = CsvTok.ch c :: csvToks (d :: more) := by
        simp [csvToks, hcnl]
      rw [hd, ih (by simp) (by simpa using hnl.2)]
      simp

theorem csvToks_chars (value : List Char) :
    ∀ d : Char, CsvTok.ch d ∈ csvToks value → d ∈ value := by
  induction value with
  | nil => intro d hd; simp [csvToks] at hd
  | cons c rest ih =>
    intro d hd
    by_cases hcnl : c = '\n'
    · subst hcnl
      have he : csvToks ('\n' :: rest) =
          CsvTok.ch '\n' :: CsvTok.eol :: csvToks rest := by
        simp [csvToks]
      rw [he] at hd
      simp only [List.mem_cons] at hd
      rcases hd with h | h | h
      · have := CsvTok.ch.inj h
        subst this
        simp
      · exact absurd h (by simp)
      · exact List.mem_cons_of_mem _ (ih d h)
    · cases rest with
      | nil =>
        have he : csvToks [c] = [CsvTok.ch c, CsvTok.eol] := by
          simp [csvToks, hcnl]
        rw [he] at hd
        simp only [List.mem_cons, List.not_mem_nil, or_false] at hd
        rcases hd with h | h
        · have := CsvTok.ch.inj h
          subst this
          simp
        · exact absurd h (by simp)
      | cons e more =>
        have he : csvToks (c :: e :: more) = CsvTok.ch c :: csvToks (e :: more) := by
          simp [csvToks, hcnl]
        rw [he] at hd
        rcases List.mem_cons.1 hd with h | h
        · have := CsvTok.ch.inj h
          subst this
          simp
        · exact List.mem_cons_of_mem _ (ih d h)

theorem csvNoChar_saveField {c : Char} {acc : CsvAcc} (h : CsvNoChar c acc) :
    CsvNoChar c (saveField acc) := by
  obtain ⟨h1, h2, h3⟩ := h
  refine ⟨by simp [saveField, List.contains], ?_, h3⟩
  intro p hp
  simp only [saveField] at hp
  rcases List.mem_append.1 hp with hm | hm
  · exact h2 p hm
  · simp only [List.mem_singleton] at hm
    subst hm
    exact h1

theorem csvNoChar_addChar {c d : Char} {acc : CsvAcc} (hd : ¬ d = c)
    (h : CsvNoChar c acc) : CsvNoChar c (addChar d acc) := by
  obtain ⟨h1, h2, h3⟩ := h
  refine ⟨?_, h2, h3⟩
  intro hco
  simp only [addChar] at hco
  rw [contains_iff_mem] at hco
  rcases List.mem_append.1 hco with hm | hm
  · exact h1 ((contains_iff_mem _ _).2 hm)
  · simp only [List.mem_singleton] at hm
    exact hd hm.symm

theorem csvNoChar_withSt {c : Char} {acc : CsvAcc} {s : CsvState}
    (h : CsvNoChar c acc) : CsvNoChar c { acc with st := s } := h

theorem csvStepCh_noChar {c d : Char} (hd : ¬ d = c) {acc acc2 : CsvAcc}
    (h : csvStepCh d acc = .ok acc2) (hinv : CsvNoChar c acc) :
    CsvNoChar c acc2 := by
  have hsf : CsvNoChar c (stepStartField d acc) := by
    unfold stepStartField
    split_ifs <;>
      first
        | exact csvNoChar_withSt (csvNoChar_saveField hinv)
        | exact csvNoChar_withSt hinv
        | exact csvNoChar_withSt (csvNoChar_addChar hd hinv)
  have hif : CsvNoChar c (stepInField d acc) := by
    unfold stepInField
    split_ifs <;>
      first
        | exact csvNoChar_withSt (csvNoChar_saveField hinv)
        | exact csvNoChar_withSt hinv
        | exact csvNoChar_withSt (csvNoChar_addChar hd hinv)
  cases hst : acc.st <;> simp only [csvStepCh, hst] at h <;>
    (try split_ifs at h) <;>
    first
      | exact Except.noConfusion h
      | (obtain rfl := Except.ok.inj h
         first
           | exact hsf
           | exact hif
           | exact hinv
           | exact csvNoChar_saveField hinv
           | exact csvNoChar_addChar hd hinv)

theorem csvStepEol_noChar {c : Char} (hc : ¬ c = '\n') {acc : CsvAcc}
    (hinv : CsvNoChar c acc) : CsvNoChar c (csvStepEol acc) := by
  obtain ⟨h1, h2, h3⟩ := hinv
  have hnl : ¬ ('\n' : Char) = c := fun hh => hc hh.symm
  have hrec1 : ∀ r ∈ acc.records ++ [acc.fields], ∀ p ∈ r, ¬ p.contains c := by
    intro r hr
    rcases List.mem_append.1 hr with hm | hm
    · exact h3 r hm
    · simp only [List.mem_singleton] at hm
      subst hm
      exact h2
  have hrec2 : ∀ r ∈ acc.records ++ [acc.fields ++ [acc.field]],
      ∀ p ∈ r, ¬ p.contains c := by
    intro r hr
    rcases List.mem_append.1 hr with hm | hm
    · exact h3 r hm
    · simp only [List.mem_singleton] at hm
      subst hm
      intro p hp
      rcases List.mem_append.1 hp with hm2 | hm2
      · exact h2 p hm2
      · simp only [List.mem_singleton] at hm2
        subst hm2
        exact h1
  unfold csvStepEol
  cases hst : acc.st <;>
    first
      | exact ⟨by simp [List.contains], by simp, hrec1⟩
      | exact ⟨by simp [List.contains], by simp, hrec2⟩
      | exact ⟨h1, h2, h3⟩
      | exact csvNoChar_withSt (csvNoChar_addChar hnl ⟨h1, h2, h3⟩)

theorem csvRunToks_noChar {c : Char} (hc : ¬ c = '\n') :
    ∀ (toks : List CsvTok) (acc acc2 : CsvAcc),
      csvRunToks acc toks = .ok acc2 →
      (∀ d : Char, CsvTok.ch d ∈ toks → ¬ d = c) →
      CsvNoChar c acc → CsvNoChar c acc2 := by
  intro toks
  induction toks with
  | nil =>
    intro acc acc2 h _ hinv
    obtain rfl := Except.ok.inj h
    exact hinv
  | cons tok rest ih =>
    intro acc acc2 h htoks hinv
    cases tok with
    | eol =>
      exact ih _ _ (by simpa [csvRunToks] using h)
        (fun d hd => htoks d (by simp [hd])) (csvStepEol_noChar hc hinv)
    | ch d =>
      have hd : ¬ d = c := htoks d (by simp)
      simp only [csvRunToks] at h
      cases hstep : csvStepCh d acc with
      | error e =>
        simp only [hstep] at h
        exact Except.noConfusion h
      | ok acc1 =>
        simp only [hstep] at h
        exact ih _ _ h (fun d2 hd2 => htoks d2 (by simp [hd2]))
          (csvStepCh_noChar hd hstep hinv)

theorem csvFinish_noChar {c : Char} {acc : CsvAcc} (hinv : CsvNoChar c acc) :
    ∀ r ∈ csvFinish acc, ∀ p ∈ r, ¬ p.contains c := by
  obtain ⟨h1, h2, h3⟩ := hinv
  intro r hr
  unfold csvFinish at hr
  split_ifs at hr
  · rcases List.mem_append.1 hr with hm | hm
    · exact h3 r hm
    · simp only [List.mem_singleton] at hm
      subst hm
      intro p hp
      rcases List.mem_append.1 hp with hm2 | hm2
      · exact h2 p hm2
      · simp only [List.mem_singleton] at hm2
        subst hm2
        exact h1
  · exact h3 r hr

theorem csvReadAll_not_contains {c : Char} (hc : ¬ c = '\n') (value : List Char)
    (hv : ¬ value.contains c) (res : List (List (List Char)))
    (h : csvReadAll value = .ok res) :
    ∀ r ∈ res, ∀ p ∈ r, ¬ p.contains c := by
  unfold csvReadAll at h
  cases hrun : csvRunToks ⟨.startRecord, [], [], []⟩ (csvToks value) with
  | error e =>
    simp only [hrun] at h
    exact Except.noConfusion h
  | ok acc =>
    simp only [hrun] at h
    obtain rfl := (Except.ok.inj h).symm
    apply csvFinish_noChar
    apply csvRunToks_noChar hc _ _ _ hrun _
      ⟨by simp [List.contains], by simp, by simp⟩
    intro d hd hdc
    subst hdc
    exact hv ((contains_iff_mem _ _).2 (csvToks_chars value d hd))

theorem csvRunToks_plain : ∀ (input : List Char) (st : CsvState),
    (st = .startField ∨ st = .inField) →
    ∀ (field : List Char) (fields : List (List Char))
      (records : List (List (List Char))),
      (∀ x ∈ input, ¬ x = '"' ∧ ¬ x = '\\' ∧ ¬ x = '\n' ∧ ¬ x = '\r') →
      csvRunToks ⟨st, field, fields, records⟩
          (input.map CsvTok.ch ++ [CsvTok.eol]) =
        .ok ⟨.startRecord, [], [],
          records ++ [fields ++ consHead field (splitOnComma input)]⟩ := by
  intro input
  induction input with
  | nil =>
    intro st hst field fields records _
    rcases hst with h | h <;> subst h <;>
      simp [csvRunToks, csvStepEol, splitOnComma, consHead]
  | cons a rest ih =>
    intro st hst field fields records hchars
    have ha := hchars a (by simp)
    have hrest : ∀ x ∈ rest, ¬ x = '"' ∧ ¬ x = '\\' ∧ ¬ x = '\n' ∧ ¬ x = '\r' :=
      fun x hx => hchars x (by simp [hx])
    have hnl : ¬ (a = '\n' ∨ a = '\r') := by tauto
    have hstep : csvStepCh a ⟨st, field, fields, records⟩ =
        .ok (if a = ',' then ⟨.startField, [], fields ++ [field], records⟩
             else ⟨.inField, field ++ [a], fields, records⟩) := by
      rcases hst with h | h <;> subst h <;>
        simp only [csvStepCh, stepStartField, stepInField] <;>
        rw [if_neg hnl]
      · rw [if_neg ha.1, if_neg ha.2.1]
        split_ifs <;> rfl
      · rw [if_neg ha.2.1]
        split_ifs <;> rfl
    have hrun : csvRunToks ⟨st, field, fields, records⟩
        ((a :: rest).map CsvTok.ch ++ [CsvTok.eol]) =
        csvRunToks (if a = ',' then ⟨.startField, [], fields ++ [field], records⟩
          else ⟨.inField, field ++ [a], fields, records⟩)
          (rest.map CsvTok.ch ++ [CsvTok.eol]) := by
      simp only [List.map_cons, List.cons_append, csvRunToks, hstep, List.append_eq]
    rw [hrun]
    by_cases hcomma : a = ','
    · rw [if_pos hcomma,
        ih .startField (Or.inl rfl) [] (fields ++ [field]) records hrest]
      subst hcomma
      have hsp : splitOnComma (',' :: rest) = [] :: splitOnComma rest := by
        simp [splitOnComma]
      rw [hsp, consHead_nil_left _ (splitOnComma_ne_nil rest)]
      cases hr : splitOnComma rest with
      | nil => exact absurd hr (splitOnComma_ne_nil rest)
      | cons t ts => simp [consHead]
    · rw [if_neg hcomma,
        ih .inField (Or.inr rfl) (field ++ [a]) fields records hrest]
      cases hsp : splitOnComma rest with
      | nil => exact absurd hsp (splitOnComma_ne_nil rest)
      | cons t ts =>
        have hsp2 : splitOnComma (a :: rest) = (a :: t) :: ts := by
          simp [splitOnComma, if_neg hcomma, hsp]
        rw [hsp2]
        simp [consHead]

theorem csvReadAll_plain (value : List Char) (hne : value ≠ [])
    (hq : ¬ value.contains '"') (he : ¬ value.contains '\\')
    (hnl : ¬ value.contains '\n') (hcr : ¬ value.contains '\r') :
    csvReadAll value = .ok [splitOnComma value] := by
  have hchars : ∀ x ∈ value, ¬ x = '"' ∧ ¬ x = '\\' ∧ ¬ x = '\n' ∧ ¬ x = '\r' := by
    intro x hx
    refine ⟨?_, ?_, ?_, ?_⟩ <;> intro hh <;> subst hh
    · exact hq ((contains_iff_mem _ _).2 hx)
    · exact he ((contains_iff_mem _ _).2 hx)
    · exact hnl ((contains_iff_mem _ _).2 hx)
    · exact hcr ((contains_iff_mem _ _).2 hx)
  cases value with
  | nil => exact absurd rfl hne
  | cons a rest =>
    have ha := hchars a (by simp)
    have hrest : ∀ x ∈ rest, ¬ x = '"' ∧ ¬ x = '\\' ∧ ¬ x = '\n' ∧ ¬ x = '\r' :=
      fun x hx => hchars x (by simp [hx])
    have hnl2 : ¬ (a = '\n' ∨ a = '\r') := by tauto
    have hstep : csvStepCh a ⟨.startRecord, [], [], []⟩ =
        .ok (if a = ',' then ⟨.startField, [], [[]], []⟩
             else ⟨.inField, [a], [], []⟩) := by
      simp only [csvStepCh, stepStartField]
      rw [if_neg hnl2, if_neg hnl2, if_neg ha.1, if_neg ha.2.1]
      split_ifs <;> rfl
    unfold csvReadAll
    rw [csvToks_map _ (by simp) hnl, List.map_cons, List.cons_append]
    have hrun : csvRunToks ⟨.startRecord, [], [], []⟩
        (CsvTok.ch a :: (rest.map CsvTok.ch ++ [CsvTok.eol])) =
        csvRunToks (if a = ',' then ⟨.startField, [], [[]], []⟩
          else ⟨.inField, [a], [], []⟩) (rest.map CsvTok.ch ++ [CsvTok.eol]) := by
      simp only [csvRunToks, hstep, List.append_eq]
    rw [hrun]
    by_cases hcomma : a = ','
    · rw [if_pos hcomma, csvRunToks_plain rest .startField (Or.inl rfl) [] [[]] [] hrest]
      subst hcomma
      have hsp : splitOnComma (',' :: rest) = [] :: splitOnComma rest := by
        simp [splitOnComma]
      rw [consHead_nil_left _ (splitOnComma_ne_nil rest)]
      simp [csvFinish, hsp]
    · rw [if_neg hcomma, csvRunToks_plain rest .inField (Or.inr rfl) [a] [] [] hrest]
      cases hsp : splitOnComma rest with
      | nil => exact absurd hsp (splitOnComma_ne_nil rest)
      | cons t ts =>
        have hsp2 : splitOnComma (a :: rest) = (a :: t) :: ts := by
          simp [splitOnComma, if_neg hcomma, hsp]
        simp [csvFinish, consHead, hsp2]

theorem csvStepCh_no_crlf (c : Char) (acc : CsvAcc)
    (hnl : ¬ (c = '\n' ∨ c = '\r'))
    (hst : acc.st = .startRecord ∨ acc.st = .startField ∨ acc.st = .inField ∨
      acc.st = .inQuoted ∨ acc.st = .quoteInQuoted ∨ acc.st = .escaped ∨
      acc.st = .escapedInQuoted) :
    ∃ acc1, csvStepCh c acc = .ok acc1 ∧ acc1.records = acc.records ∧
      (acc1.st = .startField ∨ acc1.st = .inField ∨ acc1.st = .inQuoted ∨
       acc1.st = .quoteInQuoted ∨ acc1.st = .escaped ∨
       acc1.st = .escapedInQuoted) := by
  obtain ⟨st, field, fields, records⟩ := acc
  simp only at hst
  rcases hst with h|h|h|h|h|h|h <;> subst h <;>
    simp only [csvStepCh, stepStartField, stepInField, saveField, addChar] <;>
    (try split_ifs) <;>
    first
      | exact absurd (by assumption) hnl
      | exact ⟨_, rfl, rfl, Or.inl rfl⟩
      | exact ⟨_, rfl, rfl, Or.inr (Or.inl rfl)⟩
      | exact ⟨_, rfl, rfl, Or.inr (Or.inr (Or.inl rfl))⟩
      | exact ⟨_, rfl, rfl, Or.inr (Or.inr (Or.inr (Or.inl rfl)))⟩
      | exact ⟨_, rfl, rfl, Or.inr (Or.inr (Or.inr (Or.inr (Or.inl rfl))))⟩
      | exact ⟨_, rfl, rfl, Or.inr (Or.inr (Or.inr (Or.inr (Or.inr rfl))))⟩

theorem csvRunToks_single_line : ∀ (input : List Char) (acc : CsvAcc),
    (∀ x ∈ input, ¬ x = '\n' ∧ ¬ x = '\r') →
    (acc.st = .startField ∨ acc.st = .inField ∨ acc.st = .inQuoted ∨
     acc.st = .quoteInQuoted ∨ acc.st = .escaped ∨ acc.st = .escapedInQuoted) →
    ∃ acc2, csvRunToks acc (input.map CsvTok.ch ++ [CsvTok.eol]) = .ok acc2 ∧
      ∃ r, csvFinish acc2 = acc.records ++ [r] := by
  intro input
  induction input with
  | nil =>
    intro acc h hst
    obtain ⟨st, field, fields, records⟩ := acc
    simp only at hst
    refine ⟨csvStepEol ⟨st, field, fields, records⟩, by simp [csvRunToks], ?_⟩
    rcases hst with h1|h1|h1|h1|h1|h1 <;> subst h1
    · exact ⟨fields ++ [field], by simp [csvStepEol, csvFinish]⟩
    · exact ⟨fields ++ [field], by simp [csvStepEol, csvFinish]⟩
    · exact ⟨fields ++ [field], by simp [csvStepEol, csvFinish]⟩
    · exact ⟨fields ++ [field], by simp [csvStepEol, csvFinish]⟩
    · exact ⟨fields ++ [field ++ ['\n']], by simp [csvStepEol, csvFinish, addChar]⟩
    · exact ⟨fields ++ [field ++ ['\n']], by simp [csvStepEol, csvFinish, addChar]⟩
  | cons a rest ih =>
    intro acc h hst
    have ha := h a (by simp)
    have hnl : ¬ (a = '\n' ∨ a = '\r') := by tauto
    obtain ⟨acc1, hstep, hrec, hst1⟩ := csvStepCh_no_crlf a acc hnl (by tauto)
    have hrun : csvRunToks acc ((a :: rest).map CsvTok.ch ++ [CsvTok.eol]) =
        csvRunToks acc1 (rest.map CsvTok.ch ++ [CsvTok.eol]) := by
      simp only [List.map_cons, List.cons_append, csvRunToks, hstep, List.append_eq]
    rw [hrun]
    obtain ⟨acc2, hrun2, r, hfin⟩ := ih acc1 (fun x hx => h x (by simp [hx])) hst1
    exact ⟨acc2, hrun2, r, by rw [hfin, hrec]⟩

theorem csvReadAll_single_line (value : List Char) (hne : value ≠ [])
    (h : ∀ x ∈ value, ¬ x = '\n' ∧ ¬ x = '\r') :
    ∃ r, csvReadAll value = .ok [r] := by
  cases value with
  | nil => exact absurd rfl hne
  | cons a rest =>
    have ha := h a (by simp)
    have hnl2 : ¬ (a = '\n' ∨ a = '\r') := by tauto
    have hnlc : ¬ (a :: rest).contains '\n' := by
      intro hco
      rw [contains_iff_mem] at hco
      exact (h '\n' hco).1 rfl
    obtain ⟨acc1, hstep, hrec, hst1⟩ :=
      csvStepCh_no_crlf a ⟨.startRecord, [], [], []⟩ hnl2 (Or.inl rfl)
    obtain ⟨acc2, hrun2, r, hfin⟩ :=
      csvRunToks_single_line rest acc1 (fun x hx => h x (by simp [hx])) hst1
    refine ⟨r, ?_⟩
    unfold csvReadAll
    rw [csvToks_map _ (by simp) hnlc, List.map_cons, List.cons_append]
    have hrun : csvRunToks ⟨.startRecord, [], [], []⟩
        (CsvTok.ch a :: (rest.map CsvTok.ch ++ [CsvTok.eol])) =
        csvRunToks acc1 (rest.map CsvTok.ch ++ [CsvTok.eol]) := by
      simp only [csvRunToks, hstep, List.append_eq]
    rw [hrun]
    simp [hrun2, hfin, hrec]

theorem find_quote_char_in_part_none (p : List Char)
    (h1 : ¬ p.contains '"') (h2 : ¬ p.contains '\'') :
    find_quote_char_in_part p = none := by
  unfold find_quote_char_in_part
  rw [if_pos ⟨h1, h2⟩]

/-! ### Helper lemmas about `_eat_items` and the splitter loop -/

theorem eatItemsAux_error (value : List Char) (endChar : Char)
    (replaceChar : Option Char) :
    ∀ (parts : List (List Char)) (e : PyErr),
      eatItemsAux value endChar replaceChar parts = .error e →
      e = .valueError value := by
  intro parts
  induction parts with
  | nil =>
    intro e h
    simp only [eatItemsAux] at h
    exact (Except.error.inj h).symm
  | cons cur rest ih =>
    intro e h
    simp only [eatItemsAux] at h
    by_cases hc : pyEndsWith cur endChar = true
    · rw [if_pos hc] at h
      exact absurd h (by simp)
    · rw [if_neg hc] at h
      cases haux : eatItemsAux value endChar replaceChar rest with
      | error e2 =>
        rw [haux] at h
        exact (Except.error.inj h) ▸ ih e2 haux
      | ok pr =>
        rw [haux] at h
        exact absurd h (by simp)

theorem eatItemsAux_rest_lt (value : List Char) (endChar : Char)
    (replaceChar : Option Char) :
    ∀ (parts chunks rest' : List (List Char)),
      eatItemsAux value endChar replaceChar parts = .ok (chunks, rest') →
      rest'.length < parts.length := by
  intro parts
  induction parts with
  | nil =>
    intro chunks rest' h
    exact absurd h (by simp [eatItemsAux])
  | cons cur rest ih =>
    intro chunks rest' h
    simp only [eatItemsAux] at h
    by_cases hc : pyEndsWith cur endChar = true
    · rw [if_pos hc] at h
      have hpair := Except.ok.inj h
      rw [Prod.mk.injEq] at hpair
      obtain ⟨-, h2⟩ := hpair
      subst h2
      simp
    · rw [if_neg hc] at h
      cases haux : eatItemsAux value endChar replaceChar rest with
      | error e2 => rw [haux] at h; exact absurd h (by simp)
      | ok pr =>
        rw [haux] at h
        have hpair := Except.ok.inj h
        rw [Prod.mk.injEq] at hpair
        obtain ⟨-, h2⟩ := hpair
        subst h2
        have := ih pr.1 pr.2 (by rw [haux])
        simp only [List.length_cons]
        omega

theorem eatItems_error (value : List Char) (parts : List (List Char))
    (part : List Char) (endChar : Char) (replaceChar : Option Char) (e : PyErr)
    (h : eatItems value parts part endChar replaceChar = .error e) :
    e = .valueError value := by
  unfold eatItems at h
  cases haux : eatItemsAux value endChar replaceChar parts with
  | error e2 =>
    rw [haux] at h
    exact (Except.error.inj h) ▸ eatItemsAux_error value endChar replaceChar parts e2 haux
  | ok pr => rw [haux] at h; exact absurd h (by simp)

theorem eatItemsAux_rest_mem (value : List Char) (endChar : Char)
    (replaceChar : Option Char) :
    ∀ (parts chunks rest' : List (List Char)),
      eatItemsAux value endChar replaceChar parts = .ok (chunks, rest') →
      ∀ p ∈ rest', p ∈ parts := by
  intro parts
  induction parts with
  | nil =>
    intro chunks rest' h
    exact absurd h (by simp [eatItemsAux])
  | cons cur rest ih =>
    intro chunks rest' h
    simp only [eatItemsAux] at h
    by_cases hc : pyEndsWith cur endChar = true
    · rw [if_pos hc] at h
      have hpair := Except.ok.inj h
      rw [Prod.mk.injEq] at hpair
      obtain ⟨-, h2⟩ := hpair
      subst h2
      exact fun p hp => by simp [hp]
    · rw [if_neg hc] at h
      cases haux : eatItemsAux value endChar replaceChar rest with
      | error e2 => rw [haux] at h; exact absurd h (by simp)
      | ok pr =>
        rw [haux] at h
        have hpair := Except.ok.inj h
        rw [Prod.mk.injEq] at hpair
        obtain ⟨-, h2⟩ := hpair
        subst h2
        exact fun p hp => by
          simpa using Or.inr (ih pr.1 pr.2 (by rw [haux]) p hp)

theorem eatItems_rest_mem (value : List Char) (parts : List (List Char))
    (part : List Char) (endChar : Char) (replaceChar : Option Char)
    (chunk : List Char) (rest' : List (List Char))
    (h : eatItems value parts part endChar replaceChar = .ok (chunk, rest')) :
    ∀ p ∈ rest', p ∈ parts := by
  unfold eatItems at h
  cases haux : eatItemsAux value endChar replaceChar parts with
  | error e2 => rw [haux] at h; exact absurd h (by simp)
  | ok pr =>
    rw [haux] at h
    have hpair := Except.ok.inj h
    rw [Prod.mk.injEq] at hpair
    obtain ⟨-, h2⟩ := hpair
    subst h2
    exact eatItemsAux_rest_mem value endChar replaceChar parts pr.1 pr.2 (by rw [haux])

theorem eatItems_rest_lt (value : List Char) (parts : List (List Char))
    (part : List Char) (endChar : Char) (replaceChar : Option Char)
    (chunk : List Char) (rest' : List (List Char))
    (h : eatItems value parts part endChar replaceChar = .ok (chunk, rest')) :
    rest'.length < parts.length := by
  unfold eatItems at h
  cases haux : eatItemsAux value endChar replaceChar parts with
  | error e2 => rw [haux] at h; exact absurd h (by simp)
  | ok pr =>
    rw [haux] at h
    have hpair := Except.ok.inj h
    rw [Prod.mk.injEq] at hpair
    obtain ⟨-, h2⟩ := hpair
    subst h2
    exact eatItemsAux_rest_lt value endChar replaceChar parts pr.1 pr.2 (by rw [haux])

theorem eatItemsAux_appendLastBr (value : List Char) (items : List (List Char))
    (h : ∀ t ∈ items, ¬ t.contains ']') (hne : items ≠ [])
    (rest : List (List Char)) :
    eatItemsAux value ']' none (appendLastBr items ++ rest) =
      .ok (appendLastBr items, rest) := by
  induction items with
  | nil => exact absurd rfl hne
  | cons t ts ih =>
    cases ts with
    | nil =>
      show eatItemsAux value ']' none ((t ++ [']']) :: rest) = _
      simp [eatItemsAux, pyEndsWith_concat, pyReplace, appendLastBr]
    | cons t2 more =>
      have hend : pyEndsWith t ']' = false :=
        pyEndsWith_false_of_not_contains t ']' (h t (by simp))
      show eatItemsAux value ']' none (t :: (appendLastBr (t2 :: more) ++ rest)) = _
      simp only [eatItemsAux]
      rw [if_neg (by simp [hend])]
      rw [ih (fun u hu => h u (by simp [hu])) (by simp)]
      simp [pyReplace, appendLastBr]

theorem processParts_passthrough : ∀ (n : Nat) (value : List Char)
    (parts : List (List Char)), parts.length < n →
    pyFindChar value ']' = -1 →
    (∀ p ∈ parts, ¬ p.contains '"' ∧ ¬ p.contains '\'') →
    processParts n value parts = .ok parts := by
  intro n
  induction n with
  | zero => intro value parts h _ _; omega
  | succ m ih =>
    intro value parts hlen hkill hp
    cases parts with
    | nil => simp [processParts]
    | cons part rest =>
      have h1 := hp part (by simp)
      have hfq : find_quote_char_in_part part = none :=
        find_quote_char_in_part_none _ h1.1 h1.2
      have hrec : processParts m value rest = .ok rest := by
        apply ih value rest (by simp at hlen; omega) hkill
        exact fun p hp2 => hp p (by simp [hp2])
      simp [processParts, hfq, hkill, hrec]

theorem processParts_no_bracket : ∀ (n : Nat) (value : List Char)
    (parts : List (List Char)) (e : PyErr), parts.length < n →
    (∀ p ∈ parts, ¬ p.contains '[') →
    processParts n value parts = .error e → e = .valueError value := by
  intro n
  induction n with
  | zero => intro value parts e h _ _; omega
  | succ m ih =>
    intro value parts e hlen hp herr
    cases parts with
    | nil => simp [processParts] at herr
    | cons part rest =>
      have hls : pyFindSub part ['=', '['] = -1 :=
        pyFindSub_no_bracket _ (hp part (by simp))
      have hrl : rest.length < m := by simp at hlen; omega
      have hprest : ∀ p ∈ rest, ¬ p.contains '[' := fun p hp2 => hp p (by simp [hp2])
      simp only [processParts, hls] at herr
      rw [if_neg (by simp)] at herr
      cases hfq : find_quote_char_in_part part with
      | none =>
        simp only [hfq] at herr
        cases hrec : processParts m value rest with
        | error e2 =>
          simp only [hrec] at herr
          exact (Except.error.inj herr) ▸ ih value rest e2 hrl hprest hrec
        | ok tail => exact absurd (hrec ▸ herr) (by simp)
      | some q =>
        simp only [hfq] at herr
        by_cases hcount : part.count q = 2
        · rw [if_pos hcount] at herr
          cases hrec : processParts m value rest with
          | error e2 =>
            simp only [hrec] at herr
            exact (Except.error.inj herr) ▸ ih value rest e2 hrl hprest hrec
          | ok tail => exact absurd (hrec ▸ herr) (by simp)
        · rw [if_neg hcount] at herr
          cases heat : eatItems value rest part q (some q) with
          | error e2 =>
            simp only [heat] at herr
            exact (Except.error.inj herr) ▸
              eatItems_error value rest part q (some q) e2 heat
          | ok pr =>
            obtain ⟨chunk, rest'⟩ := pr
            simp only [heat] at herr
            have hlt := eatItems_rest_lt value rest part q (some q) chunk rest' heat
            cases hrec : processParts m value rest' with
            | error e2 =>
              simp only [hrec] at herr
              have hmem := eatItems_rest_mem value rest part q (some q) chunk rest' heat
              exact (Except.error.inj herr) ▸
                ih value rest' e2 (by omega) (fun p hp2 => hprest p (hmem p hp2)) hrec
            | ok tail => exact absurd (hrec ▸ herr) (by simp)

/-! ### The quote-detector agrees with "first quote character wins" -/

theorem find_quote_char_in_part_eval (p : List Char)
    (h : p.contains '"' ∨ p.contains '\'') :
    find_quote_char_in_part p =
      if pyFindChar p '"' ≥ 0 ∧ pyFindChar p '\'' = -1 then some '"'
      else if pyFindChar p '\'' ≥ 0 ∧ pyFindChar p '"' = -1 then some '\''
      else if pyFindChar p '"' < pyFindChar p '\'' then some '"'
      else if pyFindChar p '\'' < pyFindChar p '"' then some '\''
      else none := by
  unfold find_quote_char_in_part
  rw [if_neg (by tauto)]

/-- C7: for every rough token, the active quote character is the first
occurrence of `"` or `'` in the token: when both are present the one at the
earlier position wins, when only one is present that one is used, and when
neither is present the detector returns `none`.  All three cases are captured
by equality with `List.find?` over the two quote characters. -/
theorem find_quote_char_eq_find (part : List Char) :
    find_quote_char_in_part part =
      part.find? (fun c => c == '"' || c == '\'') := by
  induction part with
  | nil => simp [find_quote_char_in_part, List.contains, List.find?]
  | cons a rest ih =>
    by_cases ha2 : a = '"'
    · subst ha2
      rw [find_quote_char_in_part_eval _ (Or.inl (by simp [List.contains_cons]))]
      have hfind : ('"' :: rest).find? (fun c => c == '"' || c == '\'') = some '"' := by
        simp [List.find?]
      rw [hfind]
      have hdq : pyFindChar ('"' :: rest) '"' = 0 := by simp [pyFindChar]
      have hge := pyFindChar_ge rest '\''
      by_cases hr : pyFindChar rest '\'' = -1
      · have hsq : pyFindChar ('"' :: rest) '\'' = -1 := by
          simp only [pyFindChar]
          rw [if_neg (by decide), if_pos hr]
        rw [hdq, hsq]
        norm_num
      · have hsq : pyFindChar ('"' :: rest) '\'' = pyFindChar rest '\'' + 1 := by
          simp only [pyFindChar]
          rw [if_neg (by decide), if_neg hr]
        rw [hdq, hsq]
        split_ifs <;> first | rfl | (exfalso; omega) | simp_all
    · by_cases ha1 : a = '\''
      · subst ha1
        rw [find_quote_char_in_part_eval _ (Or.inr (by simp [List.contains_cons]))]
        have hfind : ('\'' :: rest).find? (fun c => c == '"' || c == '\'') = some '\'' := by
          simp [List.find?]
        rw [hfind]
        have hsq : pyFindChar ('\'' :: rest) '\'' = 0 := by simp [pyFindChar]
        have hge := pyFindChar_ge rest '"'
        by_cases hr : pyFindChar rest '"' = -1
        · have hdq : pyFindChar ('\'' :: rest) '"' = -1 := by
            simp only [pyFindChar]
            rw [if_neg (by decide), if_pos hr]
          rw [hdq, hsq]
          norm_num
        · have hdq : pyFindChar ('\'' :: rest) '"' = pyFindChar rest '"' + 1 := by
            simp only [pyFindChar]
            rw [if_neg (by decide), if_neg hr]
          rw [hdq, hsq]
          split_ifs <;> first | rfl | (exfalso; omega) | simp_all
      · have hpa : ((fun c => c == '"' || c == '\'') a) = false := by
          simp [ha2, ha1]
        have hfind : (a :: rest).find? (fun c => c == '"' || c == '\'') =
            rest.find? (fun c => c == '"' || c == '\'') := by
          simp only [List.find?, hpa]
        rw [hfind, ← ih]
        have hda : pyFindChar (a :: rest) '"' =
            (if pyFindChar rest '"' = -1 then -1 else pyFindChar rest '"' + 1) := by
          simp only [pyFindChar]
          rw [if_neg ha2]
        have hsa : pyFindChar (a :: rest) '\'' =
            (if pyFindChar rest '\'' = -1 then -1 else pyFindChar rest '\'' + 1) := by
          simp only [pyFindChar]
          rw [if_neg ha1]
        by_cases hc : rest.contains '"' ∨ rest.contains '\''
        · have hcc : (a :: rest).contains '"' ∨ (a :: rest).contains '\'' := by
            rcases hc with h | h
            · refine Or.inl ?_
              rw [contains_iff_mem]
              exact List.mem_cons_of_mem a ((contains_iff_mem rest '"').1 h)
            · refine Or.inr ?_
              rw [contains_iff_mem]
              exact List.mem_cons_of_mem a ((contains_iff_mem rest '\'').1 h)
          rw [find_quote_char_in_part_eval _ hcc, find_quote_char_in_part_eval _ hc,
            hda, hsa]
          have h1 := pyFindChar_ge rest '"'
          have h2 := pyFindChar_ge rest '\''
          by_cases hr1 : pyFindChar rest '"' = -1 <;>
            by_cases hr2 : pyFindChar rest '\'' = -1
          · exfalso
            rcases hc with h | h
            · exact ((pyFindChar_neg_iff rest '"').1 hr1) h
            · exact ((pyFindChar_neg_iff rest '\'').1 hr2) h
          · rw [if_pos hr1, if_neg hr2]
            split_ifs <;> first | rfl | (exfalso; omega) | simp_all
          · rw [if_neg hr1, if_pos hr2]
            split_ifs <;> first | rfl | (exfalso; omega) | simp_all
          · rw [if_neg hr1, if_neg hr2]
            split_ifs <;> first | rfl | (exfalso; omega) | simp_all
        · push_neg at hc
          rw [find_quote_char_in_part_none _ hc.1 hc.2,
            find_quote_char_in_part_none _ ?_ ?_]
          · intro hcontra
            rw [contains_iff_mem] at hcontra
            rcases List.mem_cons.1 hcontra with hm | hm
            · exact ha2 hm.symm
            · exact hc.1 ((contains_iff_mem rest '"').2 hm)
          · intro hcontra
            rw [contains_iff_mem] at hcontra
            rcases List.mem_cons.1 hcontra with hm | hm
            · exact ha1 hm.symm
            · exact hc.2 ((contains_iff_mem rest '\'').2 hm)

/-! ### Evaluation lemmas for the bracketed-list branch -/

theorem appendLastBr_ne_nil (items : List (List Char)) (h : items ≠ []) :
    appendLastBr items ≠ [] := by
  cases items with
  | nil => exact absurd rfl h
  | cons t ts => cases ts <;> simp [appendLastBr]

theorem appendLastBr_length (items : List (List Char)) :
    (appendLastBr items).length = items.length := by
  induction items with
  | nil => rfl
  | cons t ts ih =>
    cases ts with
    | nil => rfl
    | cons t2 more =>
      show (t :: appendLastBr (t2 :: more)).length = _
      simp only [List.length_cons] at *
      omega

theorem processParts_nil_of_pos (n : Nat) (value : List Char) (hn : 0 < n) :
    processParts n value [] = .ok [] := by
  cases n with
  | zero => omega
  | succ m => rfl

/-- One unfolding of the loop body at positive fuel, stated verbatim so that
symbolic arguments can be evaluated branch by branch. -/
theorem processParts_cons (n : Nat) (value part : List Char)
    (rest : List (List Char)) :
    processParts (n + 1) value (part :: rest) =
      (let quoteChar := find_quote_char_in_part part
       let listStart := pyFindSub part ['=', '[']
       let listCond : Bool :=
         decide (listStart ≥ 0) && decide (¬ pyFindChar value ']' = -1) &&
         (match quoteChar with
          | none => true
          | some q => decide (pyFindChar part q > listStart))
       if listCond then
         let chunkRes :=
           if part.contains ']' then Except.ok (part, rest)
           else eatItems value rest part ']' none
         match chunkRes with
         | .error e => .error e
         | .ok (newChunk, rest') =>
           let inner := (newChunk.drop (listStart.toNat + 2)).dropLast
           let itemsRes :=
             match csvReadAll inner with
             | .error _ =>
               Except.error (PyErr.valueError ("Bad csv value: ".toList ++ inner))
             | .ok [] => Except.error PyErr.indexError
             | .ok (ps :: _) => processParts n inner ps
           match itemsRes with
           | .error e => .error e
           | .ok listItems =>
             let newChunk2 := newChunk.take (listStart.toNat + 1) ++ joinComma listItems
             match processParts n value rest' with
             | .error e => .error e
             | .ok tail => .ok (newChunk2 :: tail)
       else
         match quoteChar with
         | none =>
           match processParts n value rest with
           | .error e => .error e
           | .ok tail => .ok (part :: tail)
         | some q =>
           if part.count q = 2 then
             match processParts n value rest with
             | .error e => .error e
             | .ok tail => .ok (part.filter (fun c => ¬ c = q) :: tail)
           else
             match eatItems value rest part q (some q) with
             | .error e => .error e
             | .ok (newChunk, rest') =>
               match processParts n value rest' with
               | .error e => .error e
               | .ok tail => .ok (newChunk :: tail)) := rfl

/-! ### Claim theorems -/

/-- C1: for every input containing none of the characters `"`, `\`, `'`, `[`,
`]`, `split_on_commas` returns exactly the plain comma split of the input
(`value.split(',')`); in particular the empty input produces the single
empty-string token (see the witness). -/
theorem split_on_commas_fast_path (value : List Char)
    (h : ¬ value.contains '"' ∧ ¬ value.contains '\\' ∧ ¬ value.contains '\'' ∧
      ¬ value.contains '[' ∧ ¬ value.contains ']') :
    split_on_commas value = .ok (splitOnComma value) := by
  unfold split_on_commas
  have hcond : ¬ ((['"', '\\', '\'', ']', '['].any fun c => value.contains c) = true) := by
    simp only [List.any_cons, List.any_nil, Bool.or_eq_true]
    push_neg
    exact ⟨h.1, h.2.1, h.2.2.1, h.2.2.2.2, h.2.2.2.1, by simp⟩
  rw [if_pos hcond]

/-- Witness for C1: the theorem applied at the empty input yields the
one-element sequence containing the empty token. -/
theorem split_on_commas_fast_path_witness :
    split_on_commas [] = .ok [[]] := by
  have h := split_on_commas_fast_path [] (by decide)
  simpa [splitOnComma] using h

/-- C2: for a token opening a bracketed list with `=[` whose items and prefix
are plain (no quotes, escapes, brackets, embedded commas or line breaks), the
splitter consumes rough tokens up to the closing `]`, recursively splits the
substring strictly between `=[` and the trailing `]`, rejoins the elements
with commas and splices the result back as a single `prefix=item1,item2,...`
token; in particular `split("key=[1,2,3]") = ["key=1,2,3"]` (see the
witness). -/
theorem split_bracket_list (key : List Char) (items : List (List Char))
    (hkey : NoSpecials key) (hkc : ¬ key.contains ',')
    (hitems : ∀ t ∈ items, NoSpecials t ∧ ¬ t.contains ',')
    (hkeyNL : NoLineBreaks key) (hitemsNL : ∀ t ∈ items, NoLineBreaks t)
    (hne : items ≠ []) (hinner : joinComma items ≠ []) :
    split_on_commas (key ++ '=' :: '[' :: (joinComma items ++ [']'])) =
      .ok [key ++ '=' :: joinComma items] := by
  have hk : ¬ key.contains '"' ∧ ¬ key.contains '\\' ∧ ¬ key.contains '\'' ∧
      ¬ key.contains '[' ∧ ¬ key.contains ']' := hkey
  have hit : ∀ t ∈ items, ¬ t.contains '"' ∧ ¬ t.contains '\\' ∧
      ¬ t.contains '\'' ∧ ¬ t.contains '[' ∧ ¬ t.contains ']' :=
    fun t ht => (hitems t ht).1
  have hitc : ∀ t ∈ items, ¬ t.contains ',' := fun t ht => (hitems t ht).2
  have hjq : ¬ (joinComma items).contains '"' :=
    contains_joinComma (by decide) items (fun t ht => (hit t ht).1)
  have hjb : ¬ (joinComma items).contains '\\' :=
    contains_joinComma (by decide) items (fun t ht => (hit t ht).2.1)
  have hjs : ¬ (joinComma items).contains '\'' :=
    contains_joinComma (by decide) items (fun t ht => (hit t ht).2.2.1)
  have hjc : ¬ (joinComma items).contains ']' :=
    contains_joinComma (by decide) items (fun t ht => (hit t ht).2.2.2.2)
  have hknl : ¬ key.contains '\n' ∧ ¬ key.contains '\r' := hkeyNL
  have hjnl : ¬ (joinComma items).contains '\n' :=
    contains_joinComma (by decide) items (fun t ht => (hitemsNL t ht).1)
  have hjcr : ¬ (joinComma items).contains '\r' :=
    contains_joinComma (by decide) items (fun t ht => (hitemsNL t ht).2)
  set value := key ++ '=' :: '[' :: (joinComma items ++ [']']) with hvalue
  have hvmem : ∀ x : Char, x ∈ value →
      x ∈ key ∨ x = '=' ∨ x = '[' ∨ x ∈ joinComma items ∨ x = ']' := by
    intro x hx
    rw [hvalue] at hx
    simp only [List.mem_append, List.mem_cons, List.not_mem_nil, or_false] at hx
    tauto
  have hvq : ¬ value.contains '"' := by
    intro hco
    rw [contains_iff_mem] at hco
    rcases hvmem _ hco with h | h | h | h | h
    · exact hk.1 ((contains_iff_mem _ _).2 h)
    · exact absurd h (by decide)
    · exact absurd h (by decide)
    · exact hjq ((contains_iff_mem _ _).2 h)
    · exact absurd h (by decide)
  have hvb : ¬ value.contains '\\' := by
    intro hco
    rw [contains_iff_mem] at hco
    rcases hvmem _ hco with h | h | h | h | h
    · exact hk.2.1 ((contains_iff_mem _ _).2 h)
    · exact absurd h (by decide)
    · exact absurd h (by decide)
    · exact hjb ((contains_iff_mem _ _).2 h)
    · exact absurd h (by decide)
  have hvs : ¬ value.contains '\'' := by
    intro hco
    rw [contains_iff_mem] at hco
    rcases hvmem _ hco with h | h | h | h | h
    · exact hk.2.2.1 ((contains_iff_mem _ _).2 h)
    · exact absurd h (by decide)
    · exact absurd h (by decide)
    · exact hjs ((contains_iff_mem _ _).2 h)
    · exact absurd h (by decide)
  have hvnl : ¬ value.contains '\n' := by
    intro hco
    rw [contains_iff_mem] at hco
    rcases hvmem _ hco with h | h | h | h | h
    · exact hknl.1 ((contains_iff_mem _ _).2 h)
    · exact absurd h (by decide)
    · exact absurd h (by decide)
    · exact hjnl ((contains_iff_mem _ _).2 h)
    · exact absurd h (by decide)
  have hvcr : ¬ value.contains '\r' := by
    intro hco
    rw [contains_iff_mem] at hco
    rcases hvmem _ hco with h | h | h | h | h
    · exact hknl.2 ((contains_iff_mem _ _).2 h)
    · exact absurd h (by decide)
    · exact absurd h (by decide)
    · exact hjcr ((contains_iff_mem _ _).2 h)
    · exact absurd h (by decide)
  have hvcl : value.contains ']' = true := by
    rw [contains_iff_mem, hvalue]
    simp
  have hclne : ¬ pyFindChar value ']' = -1 :=
    fun hh => ((pyFindChar_neg_iff _ _).1 hh) hvcl
  have hvne : value ≠ [] := by simp [hvalue]
  have h1 : (['"', '\\', '\'', ']', '['].any fun c => value.contains c) = true := by
    simp only [List.any_cons, List.any_nil, Bool.or_eq_true]
    exact Or.inr (Or.inr (Or.inr (Or.inl hvcl)))
  have h2 : (['"', '\'', '[', ']'].any fun c => value.contains c) = true := by
    simp only [List.any_cons, List.any_nil, Bool.or_eq_true]
    exact Or.inr (Or.inr (Or.inr (Or.inl hvcl)))
  unfold split_on_commas
  rw [if_neg (not_not_intro h1), if_neg (not_not_intro h2)]
  unfold split_with_quotes
  have hcp : csvReadAll value = .ok [splitOnComma value] :=
    csvReadAll_plain value hvne hvq hvb hvnl hvcr
  have hkey2c : ¬ (key ++ ['=', '[']).contains ',' := by
    intro hco
    rw [contains_iff_mem] at hco
    simp only [List.mem_append, List.mem_cons, List.not_mem_nil, or_false] at hco
    rcases hco with h | h | h
    · exact hkc ((contains_iff_mem _ _).2 h)
    · exact absurd h (by decide)
    · exact absurd h (by decide)
  have hform : value = (key ++ ['=', '[']) ++ (joinComma items ++ [']']) := by
    simp [hvalue, List.append_assoc]
  have hsp : splitOnComma value =
      consHead (key ++ ['=', '[']) (appendLastBr items) := by
    rw [hform, splitOnComma_append _ _ hkey2c, splitOnComma_join_br items hne hitc]
  simp only [hcp, hsp]
  obtain ⟨t1, its, rfl⟩ : ∃ t1 its, items = t1 :: its := by
    cases items with
    | nil => exact absurd rfl hne
    | cons t1 its => exact ⟨t1, its, rfl⟩
  have ht1 := hit t1 (by simp)
  have ht1c := hitc t1 (by simp)
  cases its with
  | nil =>
    have ht1ne : t1 ≠ [] := by simpa [joinComma] using hinner
    have hsp2 : consHead (key ++ ['=', '[']) (appendLastBr [t1]) =
        [(key ++ ['=', '[']) ++ (t1 ++ [']'])] := by
      simp [appendLastBr, consHead]
    rw [hsp2]
    have hpv : (key ++ ['=', '[']) ++ (t1 ++ [']']) = value := by
      rw [hform]
      simp [joinComma]
    rw [hpv]
    have hfq : find_quote_char_in_part value = none :=
      find_quote_char_in_part_none _ hvq hvs
    have hls : pyFindSub value ['=', '['] = (key.length : Int) := by
      rw [hvalue]
      exact pyFindSub_marker key _ hk.2.2.2.1
    have hfuel : value.length + [value].length + 2 = (value.length + 2) + 1 := by
      simp
    rw [hfuel, processParts_cons]
    simp only [hfq, hls]
    rw [if_pos (by simp [hclne, Int.natCast_nonneg])]
    rw [if_pos hvcl]
    have htoNat : ((key.length : Int)).toNat = key.length := by simp
    have hdrop : (value.drop (key.length + 2)).dropLast = t1 := by
      have hd : value.drop (key.length + 2) = t1 ++ [']'] := by
        conv_lhs => rw [hform]
        rw [List.drop_left' (by simp)]
        simp [joinComma]
      rw [hd, List.dropLast_concat]
    have hparse : csvReadAll t1 = .ok [[t1]] := by
      rw [csvReadAll_plain t1 ht1ne ht1.1 ht1.2.1 (hitemsNL t1 (by simp)).1
        (hitemsNL t1 (by simp)).2, splitOnComma_nocomma t1 ht1c]
    have hpass : processParts (value.length + 2) t1 [t1] = .ok [t1] := by
      apply processParts_passthrough _ _ _ (by simp)
      · exact (pyFindChar_neg_iff _ _).2 ht1.2.2.2.2
      · intro p hp
        simp only [List.mem_singleton] at hp
        subst hp
        exact ⟨ht1.1, ht1.2.2.1⟩
    have htake : value.take (key.length + 1) = key ++ ['='] := by
      have hform2 : value = (key ++ ['=']) ++ ('[' :: (joinComma [t1] ++ [']'])) := by
        rw [hform]
        simp [List.append_assoc]
      rw [hform2, List.take_left' (by simp)]
    have hnil : processParts (value.length + 2) value [] = .ok [] :=
      processParts_nil_of_pos _ _ (by omega)
    simp only [htoNat, hdrop, hparse, hpass, htake, hnil]
    simp [joinComma, List.append_assoc]
  | cons t2 more =>
    have hitsne : appendLastBr (t2 :: more) ≠ [] :=
      appendLastBr_ne_nil _ (by simp)
    have hsp2 : consHead (key ++ ['=', '[']) (appendLastBr (t1 :: t2 :: more)) =
        ((key ++ ['=', '[']) ++ t1) :: appendLastBr (t2 :: more) := by
      show consHead (key ++ ['=', '[']) (t1 :: appendLastBr (t2 :: more)) = _
      simp [consHead]
    rw [hsp2]
    set part := (key ++ ['=', '[']) ++ t1 with hpart
    have hpmem : ∀ x : Char, x ∈ part → x ∈ key ∨ x = '=' ∨ x = '[' ∨ x ∈ t1 := by
      intro x hx
      rw [hpart] at hx
      simp only [List.mem_append, List.mem_cons, List.not_mem_nil, or_false] at hx
      tauto
    have hpq : ¬ part.contains '"' := by
      intro hco
      rw [contains_iff_mem] at hco
      rcases hpmem _ hco with h | h | h | h
      · exact hk.1 ((contains_iff_mem _ _).2 h)
      · exact absurd h (by decide)
      · exact absurd h (by decide)
      · exact ht1.1 ((contains_iff_mem _ _).2 h)
    have hps : ¬ part.contains '\'' := by
      intro hco
      rw [contains_iff_mem] at hco
      rcases hpmem _ hco with h | h | h | h
      · exact hk.2.2.1 ((contains_iff_mem _ _).2 h)
      · exact absurd h (by decide)
      · exact absurd h (by decide)
      · exact ht1.2.2.1 ((contains_iff_mem _ _).2 h)
    have hpcl : ¬ part.contains ']' := by
      intro hco
      rw [contains_iff_mem] at hco
      rcases hpmem _ hco with h | h | h | h
      · exact hk.2.2.2.2 ((contains_iff_mem _ _).2 h)
      · exact absurd h (by decide)
      · exact absurd h (by decide)
      · exact ht1.2.2.2.2 ((contains_iff_mem _ _).2 h)
    have hfq : find_quote_char_in_part part = none :=
      find_quote_char_in_part_none _ hpq hps
    have hls : pyFindSub part ['=', '['] = (key.length : Int) := by
      rw [hpart]
      have : (key ++ ['=', '[']) ++ t1 = key ++ '=' :: '[' :: t1 := by
        simp [List.append_assoc]
      rw [this]
      exact pyFindSub_marker key _ hk.2.2.2.1
    have hfuel : value.length + (part :: appendLastBr (t2 :: more)).length + 2 =
        (value.length + (appendLastBr (t2 :: more)).length + 2) + 1 := by
      simp only [List.length_cons]
      omega
    rw [hfuel, processParts_cons]
    simp only [hfq, hls]
    rw [if_pos (by simp [hclne, Int.natCast_nonneg])]
    rw [if_neg hpcl]
    have heataux : eatItemsAux value ']' none (appendLastBr (t2 :: more)) =
        .ok (appendLastBr (t2 :: more), []) := by
      have h := eatItemsAux_appendLastBr value (t2 :: more)
        (fun t ht => (hit t (by simp [ht])).2.2.2.2) (by simp) []
      rwa [List.append_nil] at h
    have heat : eatItems value (appendLastBr (t2 :: more)) part ']' none =
        .ok (value, []) := by
      unfold eatItems
      simp only [heataux]
      have hchunk : joinComma (pyReplace none part :: appendLastBr (t2 :: more)) =
          value := by
        show joinComma (part :: appendLastBr (t2 :: more)) = value
        have hstep1 : part :: appendLastBr (t2 :: more) =
            consHead (key ++ ['=', '[']) (appendLastBr (t1 :: t2 :: more)) := by
          show _ = consHead (key ++ ['=', '[']) (t1 :: appendLastBr (t2 :: more))
          simp [consHead, hpart]
        rw [hstep1, joinComma_consHead _ _ (appendLastBr_ne_nil _ (by simp)),
          joinComma_appendLastBr _ (by simp), hform]
      rw [hchunk]
    rw [heat]
    have htoNat : ((key.length : Int)).toNat = key.length := by simp
    have hdrop : (value.drop (key.length + 2)).dropLast = joinComma (t1 :: t2 :: more) := by
      have hd : value.drop (key.length + 2) = joinComma (t1 :: t2 :: more) ++ [']'] := by
        conv_lhs => rw [hform]
        exact List.drop_left' (by simp)
      rw [hd, List.dropLast_concat]
    have hparse : csvReadAll (joinComma (t1 :: t2 :: more)) =
        .ok [t1 :: t2 :: more] := by
      rw [csvReadAll_plain _ hinner hjq hjb hjnl hjcr,
        splitOnComma_join _ hne hitc]
    have hpass : processParts (value.length + (appendLastBr (t2 :: more)).length + 2)
        (joinComma (t1 :: t2 :: more)) (t1 :: t2 :: more) = .ok (t1 :: t2 :: more) := by
      apply processParts_passthrough _ _ _ ?_ ((pyFindChar_neg_iff _ _).2 hjc)
      · intro p hp
        exact ⟨(hit p hp).1, (hit p hp).2.2.1⟩
      · have := appendLastBr_length (t2 :: more)
        simp only [List.length_cons] at *
        omega
    have htake : value.take (key.length + 1) = key ++ ['='] := by
      have hform2 : value = (key ++ ['=']) ++
          ('[' :: (joinComma (t1 :: t2 :: more) ++ [']'])) := by
        rw [hform]
        simp [List.append_assoc]
      rw [hform2, List.take_left' (by simp)]
    have hnil : processParts (value.length + (appendLastBr (t2 :: more)).length + 2)
        value [] = .ok [] := processParts_nil_of_pos _ _ (by omega)
    simp only [htoNat, hdrop, hparse, hpass, htake, hnil]
    simp [List.append_assoc]

/-- Witness for C2: the theorem applied at `key=[1,2,3]` gives the single
token `key=1,2,3`. -/
theorem split_bracket_list_witness :
    split_on_commas ("key".toList ++ '=' :: '[' ::
        (joinComma [['1'], ['2'], ['3']] ++ [']'])) =
      .ok ["key".toList ++ '=' :: joinComma [['1'], ['2'], ['3']]] :=
  split_bracket_list "key".toList [['1'], ['2'], ['3']] (by decide) (by decide)
    (by decide) (by decide) (by decide) (by decide) (by decide)

/-- C3 counterexample: `split_on_commas "key=[1,2"` raises nothing; because
the input contains no `]`, the list branch is never entered and the rough
tokens are returned unchanged. -/
theorem unclosed_bracket_no_close_returns_tokens :
    split_on_commas "key=[1,2".toList = .ok ["key=[1".toList, ['2']] := by decide

/-- C3 amended: for an input free of line breaks, the bracket error is raised
only when the input also contains a `]` somewhere.  An input with an `=[`
marker but no `]` at all (and no quotes, no line breaks) never raises — the
`=[` token passes through unchanged — while an input with a `]` elsewhere but
no rough token ending in `]` after the `=[` token raises `ValueError`
carrying the input; an input with a bare carriage return instead raises the
`Bad csv value:` error of the csv layer. -/
theorem unclosed_bracket_amended :
    (∀ value : List Char, ¬ value.contains ']' → ¬ value.contains '"' →
      ¬ value.contains '\'' → ¬ value.contains '\n' → ¬ value.contains '\r' →
      ∀ e : PyErr, split_on_commas value ≠ .error e) ∧
    split_on_commas "a],key=[1,2".toList =
      .error (.valueError "a],key=[1,2".toList) ∧
    split_on_commas "key=[a\rb".toList =
      .error (.valueError ("Bad csv value: key=[a\rb".toList)) := by
  refine ⟨?_, by decide, by decide⟩
  intro value hbr hdq hsq hnl hcr e herr
  unfold split_on_commas at herr
  by_cases h1 : (['"', '\\', '\'', ']', '['].any fun c => value.contains c) = true
  · rw [if_neg (not_not_intro h1)] at herr
    have hvne : value ≠ [] := by
      intro hv
      subst hv
      exact absurd h1 (by decide)
    have hchars : ∀ x ∈ value, ¬ x = '\n' ∧ ¬ x = '\r' := by
      intro x hx
      constructor <;> intro hh <;> subst hh
      · exact hnl ((contains_iff_mem _ _).2 hx)
      · exact hcr ((contains_iff_mem _ _).2 hx)
    obtain ⟨r, hcp⟩ := csvReadAll_single_line value hvne hchars
    by_cases h2 : (['"', '\'', '[', ']'].any fun c => value.contains c) = true
    · rw [if_neg (not_not_intro h2)] at herr
      unfold split_with_quotes at herr
      simp only [hcp] at herr
      have hparts : ∀ p ∈ r, ¬ p.contains '"' ∧ ¬ p.contains '\'' := by
        intro p hp
        constructor
        · exact csvReadAll_not_contains (by decide) value hdq [r] hcp r
            (by simp) p hp
        · exact csvReadAll_not_contains (by decide) value hsq [r] hcp r
            (by simp) p hp
      have hkill : pyFindChar value ']' = -1 := (pyFindChar_neg_iff value ']').2 hbr
      rw [processParts_passthrough (value.length + r.length + 2) value r
        (by omega) hkill hparts] at herr
      exact absurd herr (by simp)
    · rw [if_pos h2] at herr
      have hcp2 : csvParse value = .ok r := by
        unfold csvParse
        rw [hcp]
      simp only [hcp2] at herr
      exact absurd herr (by simp)
  · rw [if_pos h1] at herr
    exact absurd herr (by simp)

/-- Witness for C3 amended: the no-`]` half applied to `key=[1,2` shows this
input raises no error. -/
theorem unclosed_bracket_amended_witness :
    split_on_commas "key=[1,2".toList ≠
      .error (.valueError "key=[1,2".toList) :=
  unclosed_bracket_amended.1 "key=[1,2".toList (by decide) (by decide)
    (by decide) (by decide) (by decide) _

/-- C4 counterexample: `split('a,"b,c')` does not raise; the csv tokenizer
consumes the unterminated double-quoted field non-strictly, and the splitter
returns `['a', 'b,c']`. -/
theorem unbalanced_double_quote_no_error :
    split_on_commas "a,\"b,c".toList = .ok [['a'], "b,c".toList] := by decide

/-- C4 amended: four concrete instances delimiting when an unbalanced quote
raises.  `split("a,'b,c")` (an unterminated single quote opening a rough
token) raises `ValueError` carrying the input, and so does `split('a"b,c')`
(a double quote opening mid-token); but `split('a,"b,c')` — the claim's own
example — is consumed by the non-strict csv tokenizer and returns
`['a', 'b,c']` without error, and `split('x"y\'z",w')`, whose single quote
inside a balanced double-quoted section is never closed, likewise returns
`["xy'z", "w"]` without error. -/
theorem unbalanced_quote_amended :
    split_on_commas "a,'b,c".toList = .error (.valueError "a,'b,c".toList) ∧
    split_on_commas "a\"b,c".toList = .error (.valueError "a\"b,c".toList) ∧
    split_on_commas "a,\"b,c".toList = .ok [['a'], "b,c".toList] ∧
    split_on_commas "x\"y'z\",w".toList = .ok ["xy'z".toList, ['w']] := by decide

/-- C5: a comma embedded in a quoted section is preserved within a single
output token and the enclosing quote characters are removed. -/
theorem split_quoted_commas_examples :
    split_on_commas "a,\"b,c\",d".toList = .ok [['a'], "b,c".toList, ['d']] ∧
    split_on_commas "key='a,b',other=1".toList =
      .ok ["key=a,b".toList, "other=1".toList] := by decide

/-- C6 counterexample: for the input `a\,b` the splitter succeeds with the
single token `a,b`, whose comma-join contains none of the quote or bracket
characters, yet re-splitting the join yields two tokens, not the output.
Moreover the splitter can succeed with the empty output: a blank first csv
row, as in `split("\na\b")`, gives `[]`, whose join is the empty string,
which re-splits to `[""]` — so the empty output must be excluded as well. -/
theorem resplit_join_counterexample :
    split_on_commas "a\\,b".toList = .ok ["a,b".toList] ∧
    ¬ (joinComma ["a,b".toList]).contains '"' ∧
    ¬ (joinComma ["a,b".toList]).contains '\'' ∧
    ¬ (joinComma ["a,b".toList]).contains '[' ∧
    ¬ (joinComma ["a,b".toList]).contains ']' ∧
    split_on_commas (joinComma ["a,b".toList]) ≠ .ok ["a,b".toList] ∧
    split_on_commas "\na\\b".toList = .ok [] ∧
    split_on_commas (joinComma ([] : List (List Char))) ≠ .ok [] := by decide

/-- C6 amended: re-splitting the comma-join of a successful nonempty output
equals the output, provided the join also contains no backslash and no output
token contains a comma (the counterexample shows the extra conditions are all
needed: an escaped comma yields a token with a comma whose join re-splits
differently, and the empty output — reachable through a blank first csv row —
re-splits to the one-empty-token list). -/
theorem resplit_join_amended (s : List Char) (ts : List (List Char))
    (hok : split_on_commas s = .ok ts) (hne : ts ≠ [])
    (hjoin : NoSpecials (joinComma ts))
    (hcomma : ∀ t ∈ ts, ¬ t.contains ',') :
    split_on_commas (joinComma ts) = .ok ts := by
  have hj : ¬ (joinComma ts).contains '"' ∧ ¬ (joinComma ts).contains '\\' ∧
      ¬ (joinComma ts).contains '\'' ∧ ¬ (joinComma ts).contains '[' ∧
      ¬ (joinComma ts).contains ']' := hjoin
  have h := split_on_commas_fast_path (joinComma ts) hj
  rw [splitOnComma_join ts hne hcomma] at h
  exact h

/-- Witness for C6 amended, at the two-token output of `split("a,b")`. -/
theorem resplit_join_amended_witness :
    split_on_commas (joinComma [['a'], ['b']]) = .ok [['a'], ['b']] :=
  resplit_join_amended "a,b".toList [['a'], ['b']] (by decide) (by decide)
    (by decide) (by decide)

/-- C8 counterexample: with nothing configured at all, the command still
writes the access-key and secret-key lines carrying the not-set sentinel;
the claim that every not-set value is silently omitted fails. -/
theorem export_not_set_lines_printed :
    run_main emptySession =
      [("AWS_ACCESS_KEY_ID", ConfigValue.notSet),
        ("AWS_SECRET_ACCESS_KEY", ConfigValue.notSet)] ∧
    ("AWS_ACCESS_KEY_ID", ConfigValue.notSet) ∈ run_main emptySession := by
  have h : run_main emptySession =
      [("AWS_ACCESS_KEY_ID", ConfigValue.notSet),
        ("AWS_SECRET_ACCESS_KEY", ConfigValue.notSet)] := rfl
  exact ⟨h, by rw [h]; simp⟩

/-- C8 amended: only the region line is omitted when its value is the
not-set sentinel; the access-key and secret-key lines are always written,
whatever their values resolve to. -/
theorem run_main_lines (s : Session) :
    ("AWS_ACCESS_KEY_ID", (lookup_credentials s).1) ∈ run_main s ∧
    ("AWS_SECRET_ACCESS_KEY", (lookup_credentials s).2) ∈ run_main s ∧
    (lookup_config s "region" = .notSet →
      run_main s = [("AWS_ACCESS_KEY_ID", (lookup_credentials s).1),
        ("AWS_SECRET_ACCESS_KEY", (lookup_credentials s).2)]) ∧
    (¬ lookup_config s "region" = .notSet →
      run_main s = [("AWS_ACCESS_KEY_ID", (lookup_credentials s).1),
        ("AWS_SECRET_ACCESS_KEY", (lookup_credentials s).2),
        ("AWS_DEFAULT_REGION", lookup_config s "region")]) := by
  unfold run_main
  by_cases hr : lookup_config s "region" = ConfigValue.notSet
  · simp [hr]
  · simp [hr]

/-- Witness for C8 amended: with nothing configured the region line is
omitted and exactly the two credential lines are written. -/
theorem run_main_lines_witness :
    run_main emptySession =
      [("AWS_ACCESS_KEY_ID", (lookup_credentials emptySession).1),
        ("AWS_SECRET_ACCESS_KEY", (lookup_credentials emptySession).2)] :=
  (run_main_lines emptySession).2.2.1 rfl

/-- C9 counterexample: splitting `key=['a,b]` fails inside the recursive call
on the bracketed substring, and the raised error carries the inner substring
`'a,b`, not the original input. -/
theorem error_payload_inner_substring :
    split_on_commas "key=['a,b]".toList = .error (.valueError "'a,b".toList) ∧
    ("'a,b".toList : List Char) ≠ "key=['a,b]".toList := by decide

/-- C9 amended: the error payload is the input of the splitter invocation in
which the failure occurs; in particular when the input contains no `[` (so no
bracketed-list recursion can happen) and no line break (so the csv layer
cannot fail with its `Bad csv value:` message) every failure carries the full
original input. -/
theorem error_payload_no_bracket (value : List Char) (e : PyErr)
    (hbr : ¬ value.contains '[')
    (hnl : ¬ value.contains '\n') (hcr : ¬ value.contains '\r')
    (herr : split_on_commas value = .error e) : e = .valueError value := by
  unfold split_on_commas at herr
  by_cases h1 : (['"', '\\', '\'', ']', '['].any fun c => value.contains c) = true
  · rw [if_neg (not_not_intro h1)] at herr
    have hvne : value ≠ [] := by
      intro hv
      subst hv
      exact absurd h1 (by decide)
    have hchars : ∀ x ∈ value, ¬ x = '\n' ∧ ¬ x = '\r' := by
      intro x hx
      constructor <;> intro hh <;> subst hh
      · exact hnl ((contains_iff_mem _ _).2 hx)
      · exact hcr ((contains_iff_mem _ _).2 hx)
    obtain ⟨r, hcp⟩ := csvReadAll_single_line value hvne hchars
    by_cases h2 : (['"', '\'', '[', ']'].any fun c => value.contains c) = true
    · rw [if_neg (not_not_intro h2)] at herr
      unfold split_with_quotes at herr
      simp only [hcp] at herr
      have hparts : ∀ p ∈ r, ¬ p.contains '[' := fun p hp =>
        csvReadAll_not_contains (by decide) value hbr [r] hcp r (by simp) p hp
      exact processParts_no_bracket (value.length + r.length + 2) value r e
        (by omega) hparts herr
    · rw [if_pos h2] at herr
      have hcp2 : csvParse value = .ok r := by
        unfold csvParse
        rw [hcp]
      simp only [hcp2] at herr
      exact absurd herr (by simp)
  · rw [if_pos h1] at herr
    exact absurd herr (by simp)

/-- Witness for C9 amended at `a,'b,c`: the failure is at top level and the
payload is the whole input. -/
theorem error_payload_no_bracket_witness :
    split_on_commas "a,'b,c".toList = .error (.valueError "a,'b,c".toList) := by
  have h1 : split_on_commas "a,'b,c".toList =
      .error (.valueError "a,'b,c".toList) := by decide
  have h2 := error_payload_no_bracket "a,'b,c".toList
    (.valueError "a,'b,c".toList) (by decide) (by decide) (by decide) h1
  exact h1

/-- C10: in `_lookup_config` the environment takes precedence: a set
environment variable is returned as is and the config file is never
consulted (the result is independent of it); the not-set sentinel is
returned exactly when both the environment and the config-file lookups
yield nothing. -/
theorem lookup_config_env_precedence (e c c2 : String → Option String)
    (cr cr2 : Option (String × String)) (name : String) :
    (∀ v, e name = some v →
      lookup_config ⟨e, c, cr⟩ name = .value v ∧
      lookup_config ⟨e, c, cr⟩ name = lookup_config ⟨e, c2, cr2⟩ name) ∧
    (lookup_config ⟨e, c, cr⟩ name = .notSet ↔ e name = none ∧ c name = none) := by
  unfold lookup_config
  cases he : e name <;> cases hc : c name <;> simp [he, hc]

/-- Witness for C10: with the region set in the environment and a different
value in the config file, the environment value is returned. -/
theorem lookup_config_env_precedence_witness :
    lookup_config envRegionSession "region" = .value "eu-west-1" :=
  ((lookup_config_env_precedence envRegionSession.envVar
      envRegionSession.configVar (fun _ => none) envRegionSession.credentials
      none "region").1 "eu-west-1" (by decide)).1

end AwsCli
